import Mathlib

/-!
Verification of the stg-net spiking-network simulator (src/stg_net).

The Python sources are shallowly embedded here:
  * `float` values are modelled as exact rationals (`ℚ`);
  * `numpy` arrays are modelled as `List ℚ`, indexed with `List.getD` and
    written with `List.set` (all indices used by the simulator are in range);
  * the transcendental `np.exp` has no exact rational counterpart, so every
    function that needs it takes an oracle `expf : ℚ → ℚ` standing for the
    numeric exponential; likewise Python's `pow` is an oracle
    `powf : ℚ → ℚ → ℚ`.  No theorem below depends on a particular choice of
    `expf`/`powf` unless its statement quantifies over it.
  * Python `int(x)` on a nonnegative quotient is `pyIntNat`;
  * `collections.deque` with `maxlen` is a `List ℚ` whose `appendleft` is
    `deqPushLeft` and whose `buffer[-1]` is `deqTail`;
  * fallible Python code (IndexError / AttributeError / TypeError /
    AssertionError) is embedded with `Except SimError`.
-/

namespace StgNet

/-- Python `int(q)` for a rational `q ≥ 0` (truncation towards zero, which on
nonnegative arguments is the floor).  Used by `Simulator.run` for
`int(T/self.dt)` and by `LIF.__initsim__` for `int(delay/dt)`. -/
def pyIntNat (q : ℚ) : ℕ := q.num.toNat / q.den

theorem pyIntNat_cast (q : ℚ) (h : 0 ≤ q) : (pyIntNat q : ℤ) = ⌊q⌋ := by
  rw [Rat.floor_def, pyIntNat]
  rw [Int.ofNat_ediv]
  congr 1
  exact Int.toNat_of_nonneg (Rat.num_nonneg.mpr h)

theorem pyIntNat_add_one (q : ℚ) (h : 0 ≤ q) :
    pyIntNat (q + 1) = pyIntNat q + 1 := by
  have h1 : 0 ≤ q + 1 := by linarith
  have := pyIntNat_cast q h
  have h2 := pyIntNat_cast (q + 1) h1
  rw [Int.floor_add_one, ← this] at h2
  exact_mod_cast h2

/-! ## Delay buffers (`LIF.__initsim__` line 90, `LIF.__load_in__`)

`inp['buffer'] = deque(int(inp['syn'].delay/dt+1)*[0], int(inp['syn'].delay/dt)+1)`
allocates, per chemical/plastic connection, a deque holding
`int(delay/dt+1)` zeros with maximum length `int(delay/dt)+1`;
each step `__load_in__` does `buffer.appendleft(spike)` and then reads
`buffer[-1]`. -/

/-- `deque.appendleft x` on a deque with maximum length `maxlen`: the new
element enters at the left, and the rightmost element is discarded when the
deque is full. -/
def deqPushLeft (maxlen : ℕ) (x : ℚ) (buf : List ℚ) : List ℚ :=
  (x :: buf).take maxlen

/-- `buffer[-1]`: the rightmost element of the deque (the deques built by
`__initsim__` are never empty, so the default 0 is never returned along the
paths the simulator takes). -/
def deqTail (buf : List ℚ) : ℚ := buf.getLastD 0

/-- Maximum length of the delay deque for a connection: `int(delay/dt)+1`. -/
def bufCap (delay dt : ℚ) : ℕ := pyIntNat (delay / dt) + 1

/-- The deque allocated by `LIF.__initsim__`:
`deque(int(delay/dt+1)*[0], maxlen=int(delay/dt)+1)`.  A deque constructor
keeps the last `maxlen` elements of its initial iterable. -/
def bufferFor (delay dt : ℚ) : List ℚ :=
  (List.replicate (pyIntNat (delay / dt + 1)) 0).drop
    (pyIntNat (delay / dt + 1) - bufCap delay dt)

theorem bufferFor_eq (delay dt : ℚ) (h : 0 ≤ delay / dt) :
    bufferFor delay dt = List.replicate (bufCap delay dt) 0 := by
  rw [bufferFor, pyIntNat_add_one _ h, bufCap]
  simp

/-- The contents of a connection's delay deque after the load-phases of steps
`0, 1, …, t` have each pushed the source's spike value (`s k` at step `k`),
starting from the zero-seeded deque built by `__initsim__`. -/
def bufAt (delay dt : ℚ) (s : ℕ → ℚ) : ℕ → List ℚ
  | 0 => deqPushLeft (bufCap delay dt) (s 0) (bufferFor delay dt)
  | t + 1 => deqPushLeft (bufCap delay dt) (s (t + 1)) (bufAt delay dt s t)

/-- The delayed value `buffer[-1]` that `__load_in__` feeds to the synapse
update (and hence into the excitatory/inhibitory aggregate) at step `t`. -/
def readAt (delay dt : ℚ) (s : ℕ → ℚ) (t : ℕ) : ℚ :=
  deqTail (bufAt delay dt s t)

/-- A source that emits a single spike at step `k` and is silent otherwise. -/
def pulse (k : ℕ) : ℕ → ℚ := fun t => if t = k then 1 else 0

/-- Closed form of the deque contents: position `j` (from the left) holds the
value pushed `j` steps ago, or the seed 0 when the run is younger than `j`. -/
def window (s : ℕ → ℚ) (t D : ℕ) : List ℚ :=
  (List.range (D + 1)).map (fun j => if j ≤ t then s (t - j) else 0)

theorem window_succ (s : ℕ → ℚ) (t D : ℕ) :
    window s (t + 1) D =
      s (t + 1) :: (List.range D).map (fun j => if j ≤ t then s (t - j) else 0) := by
  rw [window, List.range_succ_eq_map, List.map_cons, List.map_map]
  refine List.cons_eq_cons.mpr ⟨by simp, ?_⟩
  apply List.map_congr_left
  intro j hj
  simp only [Function.comp_apply]
  by_cases hc : j ≤ t
  · rw [if_pos (by omega), if_pos hc]
    congr 1
    omega
  · rw [if_neg (by omega), if_neg hc]

theorem take_window (s : ℕ → ℚ) (t D : ℕ) :
    (window s t D).take D =
      (List.range D).map (fun j => if j ≤ t then s (t - j) else 0) := by
  rw [window, ← List.map_take, List.take_range, min_eq_left (Nat.le_succ _)]

theorem bufAt_eq_window (delay dt : ℚ) (h : 0 ≤ delay / dt) (s : ℕ → ℚ) (t : ℕ) :
    bufAt delay dt s t = window s t (pyIntNat (delay / dt)) := by
  induction t with
  | zero =>
      rw [bufAt, bufferFor_eq _ _ h, deqPushLeft, bufCap]
      rw [List.take_succ_cons, List.take_replicate, min_eq_left (Nat.le_succ _)]
      rw [window, List.range_succ_eq_map, List.map_cons, List.map_map]
      refine List.cons_eq_cons.mpr ⟨by simp, ?_⟩
      apply List.ext_getElem
      · simp
      · intro i h1 h2
        simp
  | succ t ih =>
      rw [bufAt, ih, deqPushLeft, bufCap, List.take_succ_cons, take_window,
        window_succ]

theorem window_getLastD (s : ℕ → ℚ) (t D : ℕ) :
    deqTail (window s t D) = if D ≤ t then s (t - D) else 0 := by
  rw [deqTail, window, List.range_succ, List.map_append]
  simp

theorem readAt_eq (delay dt : ℚ) (h : 0 ≤ delay / dt) (s : ℕ → ℚ) (t : ℕ) :
    readAt delay dt s t =
      if pyIntNat (delay / dt) ≤ t then s (t - pyIntNat (delay / dt)) else 0 := by
  rw [readAt, bufAt_eq_window _ _ h, window_getLastD]

/-! ## Synapse models (conn.py)

Each Python class becomes a structure whose field defaults are the class
attributes; `__init__` overrides come from the construction functions further
below.  Each `update` returns the new synapse state together with the value
the Python `__update__` returns. -/

/-- conn.py `StaticCon`. -/
structure StaticCon where
  weight : ℚ := 1
  delay : ℚ := 5
  weights : List ℚ := [1]
deriving DecidableEq

/-- `StaticCon.__update__`: record the weight, return it unchanged. -/
def StaticCon.update (c : StaticCon) (spike : ℚ) : StaticCon × ℚ :=
  ({ c with weights := c.weights ++ [c.weight] }, c.weight)

/-- conn.py `GapCon`. -/
structure GapCon where
  weight : ℚ := 1
deriving DecidableEq

/-- `GapCon.__update__`: return `abs(weight)`. -/
def GapCon.update (c : GapCon) : ℚ := |c.weight|

/-- conn.py `FaciCon` (facilitating synapse); `__init__` sets `prel = p_init`. -/
structure FaciCon where
  weight : ℚ := 1
  delay : ℚ := 5
  p_init : ℚ := 1/2
  fF : ℚ := 1/2
  tau_FP : ℚ := 1000
  prel : ℚ := 1/2
deriving DecidableEq

/-- `FaciCon.__update__`. -/
def FaciCon.update (c : FaciCon) (spike : ℚ) : FaciCon × ℚ :=
  let prel := c.prel + (c.p_init - c.prel) / c.tau_FP + c.fF * (1 - c.p_init) * spike
  ({ c with prel := prel }, c.weight * prel / c.p_init)

/-- conn.py `DeprCon` (depressing synapse); `__init__` sets `prel = p_init`. -/
structure DeprCon where
  weight : ℚ := 1
  delay : ℚ := 5
  p_init : ℚ := 1/2
  fD : ℚ := 1/5
  tau_DP : ℚ := 1000
  prel : ℚ := 1/2
deriving DecidableEq

/-- `DeprCon.__update__`. -/
def DeprCon.update (c : DeprCon) (spike : ℚ) : DeprCon × ℚ :=
  let prel := c.prel + (c.p_init - c.prel) / c.tau_DP - c.fD * c.p_init * spike
  ({ c with prel := prel }, c.weight * prel / c.p_init)

/-- conn.py `HebbCon` (Hebbian plastic synapse). -/
structure HebbCon where
  weight : ℚ := 1
  delay : ℚ := 5
  gamma : ℚ := 1/100
  wmax : ℚ := 2
  beta : ℚ := 1
  trace_x : ℚ := 0
  tau_x : ℚ := 100
  trace_th : ℚ := 1
  trace_y : ℚ := 0
  tau_y : ℚ := 300
  weights : List ℚ := [1]
deriving DecidableEq

/-- `HebbCon.__update__`: traces first, then the weight update through
Python's `pow` (oracle `powf`), then the clamp `max(min(weight, wmax), 0)`.
`preSpike`/`preDt` are `pre.spike`/`pre.dt` and `postSpike`/`postDt` are
`post.spike`/`post.dt` of the devices passed in. -/
def HebbCon.update (powf : ℚ → ℚ → ℚ) (c : HebbCon)
    (preSpike preDt postSpike postDt : ℚ) : HebbCon × ℚ :=
  let tx := c.trace_x + (-c.trace_x / c.tau_x + preSpike) * preDt
  let ty := c.trace_y + (-c.trace_y / c.tau_y + postSpike) * postDt
  let w1 := c.weight + c.gamma * powf (c.wmax - c.weight) c.beta
      * (tx - c.trace_th * preDt) * ty
  let w2 := max (min w1 c.wmax) 0
  ({ c with trace_x := tx, trace_y := ty, weight := w2,
            weights := c.weights ++ [w2] }, w2)

/-- conn.py `CompCon` (competitive Hebbian synapse). -/
structure CompCon where
  weight : ℚ := 1
  delay : ℚ := 5
  lam : ℚ := 1/10
  trace_x : ℚ := 0
  tau_x : ℚ := 100
  trace_y : ℚ := 0
  tau_y : ℚ := 100
  weights : List ℚ := [1]
deriving DecidableEq

/-- `CompCon.__update__`. -/
def CompCon.update (c : CompCon)
    (preSpike preDt postSpike postDt : ℚ) : CompCon × ℚ :=
  let tx := c.trace_x + (-c.trace_x / c.tau_x + preSpike) * preDt
  let ty := c.trace_y + (-c.trace_y / c.tau_y + postSpike) * postDt
  let w1 := c.weight + c.lam * (ty * (tx - c.weight)) * preDt
  ({ c with trace_x := tx, trace_y := ty, weight := w1,
            weights := c.weights ++ [w1] }, w1)

/-- conn.py `STDPCon` (spike-timing-dependent plastic synapse). -/
structure STDPCon where
  weight : ℚ := 1
  delay : ℚ := 5
  trace_x : ℚ := 0
  tau_x : ℚ := 10
  trace_y : ℚ := 0
  tau_y : ℚ := 10
  lam : ℚ := 20
  alph : ℚ := 1/2
  weights : List ℚ := [1]
  xs : List ℚ := [0]
  ys : List ℚ := [0]
deriving DecidableEq

/-- `STDPCon.__update__`. -/
def STDPCon.update (c : STDPCon)
    (preSpike preDt postSpike postDt : ℚ) : STDPCon × ℚ :=
  let tx := c.trace_x + (-c.trace_x / c.tau_x + preSpike) * preDt
  let ty := c.trace_y + (-c.trace_y / c.tau_y + postSpike) * postDt
  let w1 := c.weight + (-c.lam * c.alph * c.weight * ty * preSpike
      + c.lam * tx * postSpike) * preDt
  ({ c with trace_x := tx, trace_y := ty, weight := w1,
            weights := c.weights ++ [w1], xs := c.xs ++ [tx], ys := c.ys ++ [ty] }, w1)

/-- C5: for every Hebbian synapse with `wmax > 0`, and for every choice of
Python-`pow` semantics, parameters and pre/post spike history (an arbitrary
pre-state `c` covers every reachable history), the weight immediately after
`HebbCon.__update__` lies in the closed interval `[0, wmax]`. -/
theorem C5_hebb_weight_clamped (powf : ℚ → ℚ → ℚ) (c : HebbCon)
    (preSpike preDt postSpike postDt : ℚ) (h : 0 < c.wmax) :
    0 ≤ (HebbCon.update powf c preSpike preDt postSpike postDt).1.weight ∧
      (HebbCon.update powf c preSpike preDt postSpike postDt).1.weight ≤ c.wmax := by
  refine ⟨le_max_right _ _, max_le (min_le_right _ _) h.le⟩

/-- C5 witness: the bound holds at a concrete update of a default Hebbian
synapse (with `pow` instantiated to multiplication on this call). -/
theorem C5_hebb_weight_clamped_witness :
    (0 : ℚ) < 2 ∧
      0 ≤ (HebbCon.update (fun a b => a * b) {} 1 1 1 1).1.weight ∧
      (HebbCon.update (fun a b => a * b) {} 1 1 1 1).1.weight ≤ 2 :=
  ⟨by norm_num, C5_hebb_weight_clamped (fun a b => a * b) {} 1 1 1 1 (by norm_num)⟩

/-! ## Scheduler registry (conn.py `Simulator`, device `__post_init__`)

For registry bookkeeping, a device is identified by its `idx`.  `Simulator`
keeps `cnt` (the counter handed out as `idx`), `devidx` and `devices`. -/

/-- The scheduler bookkeeping state from `Simulator.__post_init__`. -/
structure SchedState where
  cnt : ℕ := 0
  devidx : List ℕ := []
  devices : List ℕ := []
deriving DecidableEq

/-- `Simulator.__reg__`: append the device iff its `idx` is not yet in
`devidx`. -/
def SchedState.reg (s : SchedState) (idx : ℕ) : SchedState :=
  if idx ∈ s.devidx then s
  else { s with devidx := s.devidx ++ [idx], devices := s.devices ++ [idx] }

/-- `LIF.__post_init__` and `Poisson_generator.__post_init__`: take
`idx = sim.cnt`, increment the counter, and append the device directly to
`sim.devices` — `sim.devidx` is not touched and `__reg__` is not called. -/
def SchedState.addDirect (s : SchedState) : SchedState × ℕ :=
  ({ s with cnt := s.cnt + 1, devices := s.devices ++ [s.cnt] }, s.cnt)

/-- `Current_injector.__post_init__` and `Gaussian_generator.__post_init__`:
take `idx = sim.cnt`, increment the counter, then call `sim.__reg__(self)`. -/
def SchedState.addViaReg (s : SchedState) : SchedState × ℕ :=
  (SchedState.reg { s with cnt := s.cnt + 1 } s.cnt, s.cnt)

/-- C10 counterexample: construct one LIF neuron on a fresh scheduler (it is
appended to `devices` with `idx = 0`, while `devidx` stays empty), then call
`__reg__` with that same device.  The claim says the registry is left
unchanged; instead the device is appended a second time and now appears
twice. -/
theorem C10_counterexample :
    (SchedState.reg (SchedState.addDirect {}).1 (SchedState.addDirect {}).2).devices
        = [0, 0] ∧
      SchedState.reg (SchedState.addDirect {}).1 (SchedState.addDirect {}).2
        ≠ (SchedState.addDirect {}).1 := by
  constructor
  · decide
  · decide

/-- C10 amended: `__reg__` itself is idempotent on `idx` — a register call
whose `idx` is already recorded in `devidx` leaves the scheduler unchanged,
and a second register call after a first one is always a no-op; devices that
register through `__reg__` at construction (`Current_injector`,
`Gaussian_generator`) therefore tolerate a further register call.  LIF
neurons and Poisson generators, however, are appended at construction
without recording their `idx`, so for them a subsequent register call
duplicates the device (see the counterexample). -/
theorem C10_reg_idempotent_on_devidx :
    (∀ (s : SchedState) (idx : ℕ), idx ∈ s.devidx → s.reg idx = s) ∧
      (∀ (s : SchedState) (idx : ℕ), (s.reg idx).reg idx = s.reg idx) ∧
      (∀ s : SchedState, (s.addViaReg.1).reg s.addViaReg.2 = s.addViaReg.1) := by
  have h1 : ∀ (s : SchedState) (idx : ℕ), idx ∈ s.devidx → s.reg idx = s := by
    intro s idx h
    simp [SchedState.reg, h]
  have h2 : ∀ (s : SchedState) (idx : ℕ), idx ∈ (s.reg idx).devidx := by
    intro s idx
    by_cases h : idx ∈ s.devidx
    · simp [SchedState.reg, h]
    · simp [SchedState.reg, h]
  exact ⟨h1, fun s idx => h1 _ _ (h2 s idx),
    fun s => h1 _ _ (h2 { s with cnt := s.cnt + 1 } s.cnt)⟩

/-- C10 amended witness: a scheduler that already recorded `idx = 0` is left
unchanged by a further register call. -/
theorem C10_reg_idempotent_on_devidx_witness :
    0 ∈ (SchedState.mk 1 [0] [0]).devidx ∧
      SchedState.reg (SchedState.mk 1 [0] [0]) 0 = SchedState.mk 1 [0] [0] :=
  ⟨by decide, C10_reg_idempotent_on_devidx.1 (SchedState.mk 1 [0] [0]) 0 (by decide)⟩

/-! ## Devices and the network state (neuron.py, input.py)

Python mutates shared device objects held in `Simulator.devices`; here the
device list is the state (`World`) and a connection refers to its source
device by position in that list. -/

/-- Runtime failure kinds of the Python simulator, for `Except`. -/
inductive SimError where
  /-- the `assert False` in the plastic branch of `LIF.__load_in__` -/
  | assertionFailed
  /-- Python IndexError (list indexing out of range) -/
  | indexError
  /-- Python AttributeError (e.g. `.v` or `.connect` on a non-neuron) -/
  | attributeError
  /-- Python TypeError (an `__update__` called with the wrong arity) -/
  | typeError
deriving DecidableEq

/-- The `otype` discriminator strings "Spikes" / "Istep". -/
inductive OType where
  | spikesT
  | istepT
deriving DecidableEq

/-- A synapse object: one of the seven conn.py classes. -/
inductive Syn where
  | static : StaticCon → Syn
  | gapC : GapCon → Syn
  | faci : FaciCon → Syn
  | depr : DeprCon → Syn
  | hebb : HebbCon → Syn
  | comp : CompCon → Syn
  | stdp : STDPCon → Syn
deriving DecidableEq

/-- The `stype` class attribute mapping each class to its bucket key. -/
inductive SType where
  | chemS
  | gapS
  | plasticS
deriving DecidableEq

/-- `stype` of each conn.py class. -/
def Syn.stype : Syn → SType
  | .static _ => .chemS
  | .gapC _ => .gapS
  | .faci _ => .chemS
  | .depr _ => .chemS
  | .hebb _ => .plasticS
  | .comp _ => .plasticS
  | .stdp _ => .plasticS

/-- The `.weight` attribute (read undelayed for current-valued chem inputs). -/
def Syn.weightAttr : Syn → ℚ
  | .static c => c.weight
  | .gapC c => c.weight
  | .faci c => c.weight
  | .depr c => c.weight
  | .hebb c => c.weight
  | .comp c => c.weight
  | .stdp c => c.weight

/-- The `.delay` attribute.  `GapCon` has none in the source, but
`__initsim__` reads `.delay` only on the chem and plastic buckets, which by
the `stype` bucket keying never hold a gap synapse; the 0 returned for
`gapC` is unreachable along the simulator's paths. -/
def Syn.delayAttr : Syn → ℚ
  | .static c => c.delay
  | .gapC _ => 0
  | .faci c => c.delay
  | .depr c => c.delay
  | .hebb c => c.delay
  | .comp c => c.delay
  | .stdp c => c.delay

/-- `__update__(spike)` dispatch for the chem bucket; a class whose
`__update__` has a different arity would raise a TypeError (unreachable via
`connect`, which buckets by `stype`). -/
def Syn.updateChem : Syn → ℚ → Except SimError (Syn × ℚ)
  | .static c, spike => let r := c.update spike; .ok (.static r.1, r.2)
  | .faci c, spike => let r := c.update spike; .ok (.faci r.1, r.2)
  | .depr c, spike => let r := c.update spike; .ok (.depr r.1, r.2)
  | _, _ => .error .typeError

/-- `__update__()` dispatch for the gap bucket. -/
def Syn.updateGap : Syn → Except SimError ℚ
  | .gapC c => .ok c.update
  | _ => .error .typeError

/-- `__update__(pre, post)` dispatch for the plastic bucket; the arguments
are the `.spike` and `.dt` fields of the passed-in pre device and post
neuron, which are all these laws read. -/
def Syn.updatePlastic (powf : ℚ → ℚ → ℚ) :
    Syn → ℚ → ℚ → ℚ → ℚ → Except SimError (Syn × ℚ)
  | .hebb c, preSpike, preDt, postSpike, postDt =>
      let r := c.update powf preSpike preDt postSpike postDt; .ok (.hebb r.1, r.2)
  | .comp c, preSpike, preDt, postSpike, postDt =>
      let r := c.update preSpike preDt postSpike postDt; .ok (.comp r.1, r.2)
  | .stdp c, preSpike, preDt, postSpike, postDt =>
      let r := c.update preSpike preDt postSpike postDt; .ok (.stdp r.1, r.2)
  | _, _, _, _, _ => .error .typeError

/-- The dataclass parameters of neuron.py `LIF` (defaults as in the source). -/
structure LIFParams where
  V_init : ℚ := -70
  V_th : ℚ := -40
  V_reset : ℚ := -55
  E_L : ℚ := -70
  tau_m : ℚ := 20
  g_L : ℚ := 2
  tref : ℚ := 2
  gE_bar : ℚ := 3
  VE : ℚ := 0
  tau_syn_E : ℚ := 2
  gI_bar : ℚ := 3
  VI : ℚ := -80
  tau_syn_I : ℚ := 5
  a : ℚ := 0
  b : ℚ := 3
  tau_w : ℚ := 30
  delatT : ℚ := 2
  v_rh : ℚ := -50
  tau_rt : ℚ := 100
  v_tau : ℚ := 1000
deriving DecidableEq

/-- One entry of a neuron's `inp` bucket: the dict `{'device': …, 'syn': …}`
plus the delay deque that `__initsim__` attaches under the `'buffer'` key
(`[]` until then; gap entries never receive one). -/
structure ConnEntry where
  device : ℕ
  syn : Syn
  buffer : List ℚ := []
deriving DecidableEq

/-- Runtime state of a neuron.py `LIF` device.  `mu_v` starts as the scalar
`V_init` (a one-element list); numpy broadcasting against the whole `v`
array turns it into a full array on the first step (see `muvUpdate`). -/
structure LIFState where
  prm : LIFParams := {}
  idx : ℕ := 0
  dt : ℚ := 0
  Lt : ℕ := 0
  states : List ℚ := []
  v : List ℚ := []
  dv : List ℚ := []
  gE : List ℚ := []
  gI : List ℚ := []
  w : List ℚ := []
  mu_v : List ℚ := []
  tr : ℚ := 0
  spike : ℚ := 0
  rt : ℚ := 0
  spikeTimes : List ℚ := []
  spikeSenders : List ℕ := []
  chem : List ConnEntry := []
  gap : List ConnEntry := []
  plastic : List ConnEntry := []
deriving DecidableEq

/-- Runtime state of input.py `Poisson_generator`, with the seeded random
draw abstracted into the deterministic masked train `train` that
`__initsim__` produces (for a fixed seed, a fixed function). -/
structure SpikeSrcState where
  train : ℕ → ℚ
  idx : ℕ := 0
  dt : ℚ := 0
  Lt : ℕ := 0
  spike : ℚ := 0

/-- Runtime state of input.py `Current_injector` (`end` is `stop` here, a
reserved word).  `current` is not reset by `__initsim__`. -/
structure CurrentSrcState where
  rate : ℚ := 0
  start : ℕ := 0
  stop : ℕ := 10000
  idx : ℕ := 0
  dt : ℚ := 0
  Lt : ℕ := 0
  Is : ℕ → ℚ := fun _ => 0
  current : ℚ := 0

/-- A registrable device. -/
inductive DevState where
  | lif : LIFState → DevState
  | spikeSrc : SpikeSrcState → DevState
  | currentSrc : CurrentSrcState → DevState

instance : Inhabited DevState := ⟨.lif {}⟩

/-- The ordered device registry (`Simulator.devices`). -/
abbrev World := List DevState

/-- Read device `i` of the registry (all positions used are in range). -/
def getDev (w : World) (i : ℕ) : DevState := w.getD i default

/-- `otype` of each device class. -/
def DevState.otype : DevState → OType
  | .lif _ => .spikesT
  | .spikeSrc _ => .spikesT
  | .currentSrc _ => .istepT

/-- The `.spike` field (read only on `otype == 'Spikes'` devices). -/
def DevState.spikeOut : DevState → ℚ
  | .lif n => n.spike
  | .spikeSrc s => s.spike
  | .currentSrc _ => 0

/-- The `.current` field (read only on `otype == 'Istep'` devices). -/
def DevState.currentOut : DevState → ℚ
  | .currentSrc s => s.current
  | .lif _ => 0
  | .spikeSrc _ => 0

/-- The `.dt` field (set on every device by `__initsim__`). -/
def DevState.dtOut : DevState → ℚ
  | .lif n => n.dt
  | .spikeSrc s => s.dt
  | .currentSrc s => s.dt

/-- The `.v` array; reading it on a device that has none is an
AttributeError (gap junctions do `gap['device'].v[it]`). -/
def DevState.vArr : DevState → Option (List ℚ)
  | .lif n => some n.v
  | .spikeSrc _ => none
  | .currentSrc _ => none

/-! ### `LIF.__load_in__` -/

/-- One chem-bucket entry: `appendleft` the source's current output into the
deque (which `__initsim__` filled to its maximum length, so the push keeps
the length), read the delayed value at `buffer[-1]`; a spike-valued source
feeds the delayed spike to the synapse update and routes
`spike_in * weight` by the sign of the returned weight, a current-valued
source adds `buffer[-1] * syn.weight` to the injected current.  Returns the
updated entry and the `(ex, inh, I)` increments. -/
def chemLoad (w : World) (e : ConnEntry) : Except SimError (ConnEntry × ℚ × ℚ × ℚ) :=
  let dev := getDev w e.device
  if dev.otype = OType.spikesT then
    let buf := deqPushLeft e.buffer.length dev.spikeOut e.buffer
    let spike_in := deqTail buf
    match e.syn.updateChem spike_in with
    | .error err => .error err
    | .ok (syn1, weight) =>
        if weight > 0 then
          .ok ({ e with syn := syn1, buffer := buf }, spike_in * weight, 0, 0)
        else
          .ok ({ e with syn := syn1, buffer := buf }, 0, spike_in * weight, 0)
  else
    let buf := deqPushLeft e.buffer.length dev.currentOut e.buffer
    .ok ({ e with buffer := buf }, 0, 0, deqTail buf * e.syn.weightAttr)

/-- The chem loop of `__load_in__` (entries processed in insertion order;
float accumulation is modelled as exact rational addition). -/
def chemLoop (w : World) : List ConnEntry → Except SimError (List ConnEntry × ℚ × ℚ × ℚ)
  | [] => .ok ([], 0, 0, 0)
  | e :: es => do
      let (e1, ex, inh, cur) ← chemLoad w e
      let (es1, ex2, inh2, cur2) ← chemLoop w es
      .ok (e1 :: es1, ex + ex2, inh + inh2, cur + cur2)

/-- One gap-bucket entry: `dv_gap -= |weight| * (v_self[it] - v_other[it]) / g_L`. -/
def gapLoad (w : World) (n : LIFState) (it : ℕ) (e : ConnEntry) : Except SimError ℚ := do
  let wt ← e.syn.updateGap
  match (getDev w e.device).vArr with
  | none => .error .attributeError
  | some vother => .ok (-(wt * (n.v.getD it 0 - vother.getD it 0) / n.prm.g_L))

/-- The gap loop of `__load_in__`. -/
def gapLoop (w : World) (n : LIFState) (it : ℕ) : List ConnEntry → Except SimError ℚ
  | [] => .ok 0
  | e :: es => do
      let d ← gapLoad w n it e
      let rest ← gapLoop w n it es
      .ok (d + rest)

/-- One plastic-bucket entry: same deque handling as chem, but the update is
called with the live pre device and the neuron itself (`post`); a
current-valued source hits `assert False`. -/
def plasticLoad (powf : ℚ → ℚ → ℚ) (w : World) (n : LIFState) (e : ConnEntry) :
    Except SimError (ConnEntry × ℚ × ℚ) :=
  let dev := getDev w e.device
  if dev.otype = OType.spikesT then
    let buf := deqPushLeft e.buffer.length dev.spikeOut e.buffer
    let spike_in := deqTail buf
    match e.syn.updatePlastic powf dev.spikeOut dev.dtOut n.spike n.dt with
    | .error err => .error err
    | .ok (syn1, weight) =>
        if weight > 0 then
          .ok ({ e with syn := syn1, buffer := buf }, spike_in * weight, 0)
        else
          .ok ({ e with syn := syn1, buffer := buf }, 0, spike_in * weight)
  else
    .error .assertionFailed

/-- The plastic loop of `__load_in__`. -/
def plasticLoop (powf : ℚ → ℚ → ℚ) (w : World) (n : LIFState) :
    List ConnEntry → Except SimError (List ConnEntry × ℚ × ℚ)
  | [] => .ok ([], 0, 0)
  | e :: es => do
      let (e1, ex, inh) ← plasticLoad powf w n e
      let (es1, ex2, inh2) ← plasticLoop powf w n es
      .ok (e1 :: es1, ex + ex2, inh + inh2)

/-- `LIF.__load_in__(it)`: chem bucket, then gap junctions, then plastic
bucket; returns the neuron with updated buffers/synapses and
`(pre_spike_ex, pre_spike_in, I, dv_gap)`. -/
def loadIn (powf : ℚ → ℚ → ℚ) (w : World) (n : LIFState) (it : ℕ) :
    Except SimError (LIFState × ℚ × ℚ × ℚ × ℚ) := do
  let (chem1, ex, inh, cur) ← chemLoop w n.chem
  let dvGap ← gapLoop w n it n.gap
  let (plas1, ex2, inh2) ← plasticLoop powf w n n.plastic
  .ok ({ n with chem := chem1, plastic := plas1 }, ex + ex2, inh + inh2, cur, dvGap)

/-! ### `LIF.__step__` -/

/-- `self.mu_v += (-self.mu_v + self.v) * (dt/self.v_tau)`: numpy broadcast
of a scalar (singleton) against the whole `v` array, elementwise afterwards. -/
def muvUpdate (muv v : List ℚ) (c : ℚ) : List ℚ :=
  if muv.length = 1 then
    let m := muv.getD 0 0
    v.map (fun x => m + (-m + x) * c)
  else
    (List.range v.length).map
      (fun i => muv.getD i 0 + (-(muv.getD i 0) + v.getD i 0) * c)

/-- The spike-flag reset and refractory/threshold transition at the top of
`LIF.__step__` (after `__load_in__`): `self.spike = 0`; if `tr > 0` force
`v[it] = V_reset` and decrement `tr`; elif `v[it] >= V_th` force the reset,
arm `tr = tref/dt`, set `spike = 1` and record the spike event; and
`self.states[it] = self.spike`. -/
def fireCheck (n0 : LIFState) (it : ℕ) : LIFState :=
  let n1 : LIFState := { n0 with spike := 0 }
  let n2 : LIFState :=
    if n1.tr > 0 then
      { n1 with v := n1.v.set it n1.prm.V_reset, tr := n1.tr - 1 }
    else if n1.v.getD it 0 ≥ n1.prm.V_th then
      { n1 with v := n1.v.set it n1.prm.V_reset, tr := n1.prm.tref / n1.dt,
                spike := 1,
                spikeTimes := n1.spikeTimes ++ [it * n1.dt],
                spikeSenders := n1.spikeSenders ++ [n1.idx] }
    else n1
  { n2 with states := n2.states.set it n2.spike }

/-- The forward-Euler tail of `LIF.__step__` (conductances, membrane
potential, adaptation, rate and mean-potential estimates), applied to the
post-transition state `n` with the aggregates from `__load_in__`. -/
def eulerTail (expf : ℚ → ℚ) (n : LIFState) (it : ℕ)
    (pre_spike_ex pre_spike_in I dv_gap : ℚ) : LIFState :=
  let g_L := n.prm.g_L
  let dt := n.dt
  let gE1 := n.gE.getD it 0 - (dt / n.prm.tau_syn_E) * n.gE.getD it 0
      + n.prm.gE_bar * pre_spike_ex
  let gI1 := n.gI.getD it 0 - (dt / n.prm.tau_syn_I) * n.gI.getD it 0
      + n.prm.gI_bar * |pre_spike_in|
  let vit := n.v.getD it 0
  let dv_reg := -(vit - n.prm.E_L)
  let dv_inj := n.prm.delatT * expf ((vit - n.prm.v_rh) / n.prm.delatT)
  let dv_spk := -(gE1 / g_L) * (vit - n.prm.VE) - (gI1 / g_L) * (vit - n.prm.VI)
  let dv_cur := I / g_L
  let dv1 := (dv_reg + dv_inj + dv_spk + dv_cur + dv_gap) * (dt / n.prm.tau_m)
  let w1 := n.w.getD it 0 + (-(n.w.getD it 0) + n.prm.a * (vit - n.prm.E_L)
      + n.prm.b * n.prm.tau_w * n.spike) * (dt / n.prm.tau_w)
  let v2 := n.v.set (it + 1) (vit + dv1 - n.w.getD it 0 / g_L)
  let rt1 := if n.spikeTimes.length > 0
    then n.rt + (-n.rt / n.prm.tau_rt + n.spike) * dt else n.rt
  { n with
    gE := n.gE.set (it + 1) gE1,
    gI := n.gI.set (it + 1) gI1,
    dv := n.dv.set (it + 1) dv1,
    w := n.w.set (it + 1) w1,
    v := v2,
    rt := rt1,
    mu_v := muvUpdate n.mu_v v2 (dt / n.prm.v_tau) }

/-- The tail of `LIF.__step__` after `__load_in__` (neuron.py lines
181-215): the transition rule followed by the forward-Euler updates. -/
def stepCore (expf : ℚ → ℚ) (n0 : LIFState) (it : ℕ)
    (agg : ℚ × ℚ × ℚ × ℚ) : LIFState :=
  eulerTail expf (fireCheck n0 it) it agg.1 agg.2.1 agg.2.2.1 agg.2.2.2

/-- `LIF.__step__(it)`. -/
def stepLIF (expf : ℚ → ℚ) (powf : ℚ → ℚ → ℚ) (w : World) (n : LIFState)
    (it : ℕ) : Except SimError LIFState := do
  let (n1, ex, inh, I, dvGap) ← loadIn powf w n it
  .ok (stepCore expf n1 it (ex, inh, I, dvGap))

/-- `__step__` of each device class. -/
def stepDevice (expf : ℚ → ℚ) (powf : ℚ → ℚ → ℚ) (w : World) (d : DevState)
    (it : ℕ) : Except SimError DevState :=
  match d with
  | .lif n => do
      let n1 ← stepLIF expf powf w n it
      .ok (.lif n1)
  | .spikeSrc s => .ok (.spikeSrc { s with spike := s.train it })
  | .currentSrc s => .ok (.currentSrc { s with current := s.Is it })

/-- Step devices `i, i+1, …` (`fuel` many) in order; each device's step reads
the world in which the earlier devices have already been updated, because
Python mutates the shared objects in place. -/
def stepSeq (expf : ℚ → ℚ) (powf : ℚ → ℚ → ℚ) (it : ℕ) :
    World → ℕ → ℕ → Except SimError World
  | w, _, 0 => .ok w
  | w, i, fuel + 1 => do
      let d1 ← stepDevice expf powf w (getDev w i) it
      stepSeq expf powf it (w.set i d1) (i + 1) fuel

/-- One pass of `for dev in self.devices: dev.__step__(it)`. -/
def stepAll (expf : ℚ → ℚ) (powf : ℚ → ℚ → ℚ) (w : World) (it : ℕ) :
    Except SimError World :=
  stepSeq expf powf it w 0 w.length

/-! ### `__initsim__` and `Simulator.run` -/

/-- `LIF.__initsim__(Lt, dt)`: fresh state arrays (`states` has length
`int(Lt/dt)`), `v[0] = V_init`, scalar `mu_v = V_init`, cleared refractory
counter, spike flag and spike records, and freshly zero-seeded delay deques
on the chem and plastic buckets.  Synapse objects and `rt` are untouched. -/
def initsimLIF (n : LIFState) (Lt : ℕ) (dt : ℚ) : LIFState :=
  let reseed : ConnEntry → ConnEntry := fun e =>
    { e with buffer := bufferFor e.syn.delayAttr dt }
  { n with
    dt := dt, Lt := Lt,
    states := List.replicate (pyIntNat ((Lt : ℚ) / dt)) 0,
    v := (List.replicate Lt 0).set 0 n.prm.V_init,
    dv := List.replicate Lt 0,
    gE := List.replicate Lt 0,
    gI := List.replicate Lt 0,
    w := List.replicate Lt 0,
    mu_v := [n.prm.V_init],
    tr := 0, spike := 0,
    spikeTimes := [], spikeSenders := [],
    chem := n.chem.map reseed,
    plastic := n.plastic.map reseed }

/-- `Poisson_generator.__initsim__(Lt, dt)`: the seeded draw regenerates the
same masked train; the initial state is `spike = spike_train[0]`. -/
def initsimSpikeSrc (s : SpikeSrcState) (Lt : ℕ) (dt : ℚ) : SpikeSrcState :=
  { s with Lt := Lt, dt := dt, spike := s.train 0 }

/-- `Current_injector.__initsim__(Lt, dt)`: `Is = ones(Lt)*rate` with
`[0:start)` and `[end:)` zeroed; `current` is not reset. -/
def initsimCurrentSrc (s : CurrentSrcState) (Lt : ℕ) (dt : ℚ) : CurrentSrcState :=
  { s with Lt := Lt, dt := dt,
           Is := fun i => if i < s.start then 0 else if s.stop ≤ i then 0 else s.rate }

/-- `__initsim__` of each device class. -/
def initsimDev (Lt : ℕ) (dt : ℚ) : DevState → DevState
  | .lif n => .lif (initsimLIF n Lt dt)
  | .spikeSrc s => .spikeSrc (initsimSpikeSrc s Lt dt)
  | .currentSrc s => .currentSrc (initsimCurrentSrc s Lt dt)

/-- The step loop of `Simulator.run`: `for it in ts[:-1]: for dev: …`. -/
def stepLoop (expf : ℚ → ℚ) (powf : ℚ → ℚ → ℚ) :
    World → List ℕ → Except SimError World
  | w, [] => .ok w
  | w, it :: rest => do
      let w1 ← stepAll expf powf w it
      stepLoop expf powf w1 rest

/-- `Simulator.run(T)`: `ts = range(int(T/dt))`; initialize every device in
registration order with `(len(ts), dt)`; then step every device, in that
same order, for each `it` in `ts[:-1]`. -/
def runSim (expf : ℚ → ℚ) (powf : ℚ → ℚ → ℚ) (dt : ℚ) (w : World) (T : ℚ) :
    Except SimError World :=
  let ts := List.range (pyIntNat (T / dt))
  stepLoop expf powf (w.map (initsimDev ts.length dt)) ts.dropLast

/-- Project the LIF state at registry position `i` (used by the theorems to
read trajectories out of a finished run). -/
def lifAt (w : World) (i : ℕ) : LIFState :=
  match getDev w i with
  | .lif n => n
  | _ => {}

/-! ## C1: the call schedule of `Simulator.run` -/

/-- A scheduler-to-device call. -/
inductive SimEvent where
  | initCall (dev : ℕ) (totalSteps : ℕ) (dtv : ℚ)
  | stepCall (dev : ℕ) (it : ℕ)
deriving DecidableEq

/-- The control-flow trace of `Simulator.run(T)` over `nDev` registered
devices, transcribing the source line by line:
`ts = list(range(0, int(T/self.dt)))`; `for dev in self.devices:
dev.__initsim__(len(ts), self.dt)`; `for it in ts[:-1]: for dev in
self.devices: dev.__step__(it)`.  Devices are numbered by registry
position. -/
def runTrace (dt : ℚ) (nDev : ℕ) (T : ℚ) : List SimEvent :=
  let ts := List.range (pyIntNat (T / dt))
  (List.range nDev).map (fun d => SimEvent.initCall d ts.length dt)
    ++ ts.dropLast.flatMap
        (fun it => (List.range nDev).map (fun d => SimEvent.stepCall d it))

theorem dropLast_range (L : ℕ) :
    (List.range L).dropLast = List.range (L - 1) := by
  rw [List.dropLast_eq_take, List.length_range, List.take_range]
  congr 1
  omega

/-- C1: `Simulator.run(T)` computes `L = floor(T/dt)` steps, first calls
`__initsim__(L, dt)` on every registered device in registration order, then
for each step index `it` from `0` to `L-2` inclusive (that is `L-1` loop
iterations) calls `__step__(it)` on every device in the same registration
order; step index `L-1` is never itself stepped. -/
theorem C1_run_schedule (dt T : ℚ) (nDev : ℕ) (hdt : 0 < dt) (hT : 0 ≤ T) :
    ((pyIntNat (T / dt) : ℤ) = ⌊T / dt⌋) ∧
      runTrace dt nDev T =
        (List.range nDev).map
            (fun d => SimEvent.initCall d (pyIntNat (T / dt)) dt)
          ++ (List.range (pyIntNat (T / dt) - 1)).flatMap
              (fun it => (List.range nDev).map (fun d => SimEvent.stepCall d it)) ∧
      (List.range (pyIntNat (T / dt))).dropLast.length = pyIntNat (T / dt) - 1 ∧
      (∀ d, SimEvent.stepCall d (pyIntNat (T / dt) - 1) ∉ runTrace dt nDev T) := by
  have hq : 0 ≤ T / dt := div_nonneg hT hdt.le
  refine ⟨pyIntNat_cast _ hq, ?_, ?_, ?_⟩
  · rw [runTrace]
    simp only [List.length_range, dropLast_range]
  · rw [dropLast_range, List.length_range]
  · intro d hmem
    rw [runTrace] at hmem
    simp only [List.length_range, dropLast_range] at hmem
    rcases List.mem_append.mp hmem with h | h
    · rcases List.mem_map.mp h with ⟨x, _, hx⟩
      exact SimEvent.noConfusion hx
    · rcases List.mem_flatMap.mp h with ⟨it, hit, hin⟩
      rcases List.mem_map.mp hin with ⟨x, _, hx⟩
      have hlt := List.mem_range.mp hit
      have : it = pyIntNat (T / dt) - 1 := by
        injection hx with h1 h2
      omega

/-- C1 witness: the schedule shape at `dt = 1`, `T = 3`, two devices. -/
theorem C1_run_schedule_witness :
    (0 : ℚ) < 1 ∧ (0 : ℚ) ≤ 3 ∧
      SimEvent.stepCall 0 (pyIntNat ((3 : ℚ) / 1) - 1) ∉ runTrace 1 2 3 :=
  ⟨by norm_num, by norm_num,
    (C1_run_schedule 1 3 2 (by norm_num) (by norm_num)).2.2.2 0⟩

/-! ## C9: current-valued sources on plastic connections -/

/-- Bucket well-formedness as `LIF.connect` establishes it: chem entries
hold chem-class synapses, gap entries hold gap synapses with a neuron as
source (so `.v` exists), plastic entries hold plastic-class synapses. -/
def wfBuckets (w : World) (n : LIFState) : Prop :=
  (∀ e ∈ n.chem, e.syn.stype = SType.chemS) ∧
    (∀ e ∈ n.gap, e.syn.stype = SType.gapS ∧ ((getDev w e.device).vArr).isSome) ∧
    (∀ e ∈ n.plastic, e.syn.stype = SType.plasticS)

theorem exceptBind_ok {α β : Type} (a : α) (f : α → Except SimError β) :
    (Except.ok a : Except SimError α) >>= f = f a := rfl

theorem exceptBind_err {α β : Type} (er : SimError) (f : α → Except SimError β) :
    (Except.error er : Except SimError α) >>= f = Except.error er := rfl

theorem chemLoop_nil (w : World) : chemLoop w [] = .ok ([], 0, 0, 0) := rfl

theorem chemLoop_cons (w : World) (e : ConnEntry) (es : List ConnEntry) :
    chemLoop w (e :: es) =
      chemLoad w e >>= (fun p => chemLoop w es >>= (fun q =>
        Except.ok (p.1 :: q.1, p.2.1 + q.2.1, p.2.2.1 + q.2.2.1,
          p.2.2.2 + q.2.2.2))) := rfl

theorem gapLoop_nil (w : World) (n : LIFState) (it : ℕ) :
    gapLoop w n it [] = .ok 0 := rfl

theorem gapLoop_cons (w : World) (n : LIFState) (it : ℕ) (e : ConnEntry)
    (es : List ConnEntry) :
    gapLoop w n it (e :: es) =
      gapLoad w n it e >>= (fun d => gapLoop w n it es >>= (fun rest =>
        Except.ok (d + rest))) := rfl

theorem plasticLoop_nil (powf : ℚ → ℚ → ℚ) (w : World) (n : LIFState) :
    plasticLoop powf w n [] = .ok ([], 0, 0) := rfl

theorem plasticLoop_cons (powf : ℚ → ℚ → ℚ) (w : World) (n : LIFState)
    (e : ConnEntry) (es : List ConnEntry) :
    plasticLoop powf w n (e :: es) =
      plasticLoad powf w n e >>= (fun p => plasticLoop powf w n es >>= (fun q =>
        Except.ok (p.1 :: q.1, p.2.1 + q.2.1, p.2.2 + q.2.2))) := rfl

theorem chemLoad_ok (w : World) (e : ConnEntry) (h : e.syn.stype = SType.chemS) :
    ∃ r, chemLoad w e = .ok r := by
  obtain ⟨d, syn, buf⟩ := e
  by_cases hdev : (getDev w { device := d, syn := syn, buffer := buf : ConnEntry }.device).otype = OType.spikesT
  · cases syn with
    | static c =>
        simp only [chemLoad, if_pos hdev, Syn.updateChem]
        split
        · exact ⟨_, rfl⟩
        · exact ⟨_, rfl⟩
    | faci c =>
        simp only [chemLoad, if_pos hdev, Syn.updateChem]
        split
        · exact ⟨_, rfl⟩
        · exact ⟨_, rfl⟩
    | depr c =>
        simp only [chemLoad, if_pos hdev, Syn.updateChem]
        split
        · exact ⟨_, rfl⟩
        · exact ⟨_, rfl⟩
    | gapC c => simp [Syn.stype] at h
    | hebb c => simp [Syn.stype] at h
    | comp c => simp [Syn.stype] at h
    | stdp c => simp [Syn.stype] at h
  · simp only [chemLoad, if_neg hdev]
    exact ⟨_, rfl⟩

theorem chemLoop_ok (w : World) (es : List ConnEntry)
    (h : ∀ e ∈ es, e.syn.stype = SType.chemS) :
    ∃ r, chemLoop w es = .ok r := by
  induction es with
  | nil => exact ⟨_, chemLoop_nil w⟩
  | cons e es ih =>
      obtain ⟨⟨e1, ex, inh, cur⟩, he⟩ := chemLoad_ok w e (h e (by simp))
      obtain ⟨⟨es1, ex2, inh2, cur2⟩, hes⟩ := ih (fun x hx => h x (by simp [hx]))
      exact ⟨(e1 :: es1, ex + ex2, inh + inh2, cur + cur2),
        by rw [chemLoop_cons, he, hes]; rfl⟩

theorem gapLoad_ok (w : World) (n : LIFState) (it : ℕ) (e : ConnEntry)
    (h : e.syn.stype = SType.gapS) (hv : ((getDev w e.device).vArr).isSome) :
    ∃ r, gapLoad w n it e = .ok r := by
  obtain ⟨d, syn, buf⟩ := e
  cases syn with
  | gapC c =>
      obtain ⟨vo, hvo⟩ := Option.isSome_iff_exists.mp hv
      simp only [gapLoad, Syn.updateGap] at hvo ⊢
      rw [hvo]
      exact ⟨_, rfl⟩
  | static c => simp [Syn.stype] at h
  | faci c => simp [Syn.stype] at h
  | depr c => simp [Syn.stype] at h
  | hebb c => simp [Syn.stype] at h
  | comp c => simp [Syn.stype] at h
  | stdp c => simp [Syn.stype] at h

theorem gapLoop_ok (w : World) (n : LIFState) (it : ℕ) (es : List ConnEntry)
    (h : ∀ e ∈ es, e.syn.stype = SType.gapS ∧ ((getDev w e.device).vArr).isSome) :
    ∃ r, gapLoop w n it es = .ok r := by
  induction es with
  | nil => exact ⟨_, gapLoop_nil w n it⟩
  | cons e es ih =>
      obtain ⟨d1, he⟩ := gapLoad_ok w n it e (h e (by simp)).1 (h e (by simp)).2
      obtain ⟨rest, hes⟩ := ih (fun x hx => h x (by simp [hx]))
      exact ⟨d1 + rest, by rw [gapLoop_cons, he, hes]; rfl⟩

theorem plasticLoad_ok (powf : ℚ → ℚ → ℚ) (w : World) (n : LIFState)
    (e : ConnEntry) (h : e.syn.stype = SType.plasticS)
    (hdev : (getDev w e.device).otype = OType.spikesT) :
    ∃ r, plasticLoad powf w n e = .ok r := by
  obtain ⟨d, syn, buf⟩ := e
  cases syn with
  | hebb c =>
      simp only [plasticLoad, if_pos hdev, Syn.updatePlastic]
      split
      · exact ⟨_, rfl⟩
      · exact ⟨_, rfl⟩
  | comp c =>
      simp only [plasticLoad, if_pos hdev, Syn.updatePlastic]
      split
      · exact ⟨_, rfl⟩
      · exact ⟨_, rfl⟩
  | stdp c =>
      simp only [plasticLoad, if_pos hdev, Syn.updatePlastic]
      split
      · exact ⟨_, rfl⟩
      · exact ⟨_, rfl⟩
  | static c => simp [Syn.stype] at h
  | gapC c => simp [Syn.stype] at h
  | faci c => simp [Syn.stype] at h
  | depr c => simp [Syn.stype] at h

theorem plasticLoop_spec (powf : ℚ → ℚ → ℚ) (w : World) (n : LIFState)
    (es : List ConnEntry) (hty : ∀ e ∈ es, e.syn.stype = SType.plasticS) :
    (plasticLoop powf w n es = .error SimError.assertionFailed
        ↔ ∃ e ∈ es, (getDev w e.device).otype ≠ OType.spikesT) ∧
      ((∀ e ∈ es, (getDev w e.device).otype = OType.spikesT) →
        ∃ r, plasticLoop powf w n es = .ok r) := by
  induction es with
  | nil =>
      refine ⟨?_, fun _ => ⟨_, plasticLoop_nil powf w n⟩⟩
      rw [plasticLoop_nil]
      simp
  | cons e es ih =>
      obtain ⟨ih1, ih2⟩ := ih (fun x hx => hty x (by simp [hx]))
      by_cases hdev : (getDev w e.device).otype = OType.spikesT
      · obtain ⟨⟨e1, ex, inh⟩, he⟩ := plasticLoad_ok powf w n e (hty e (by simp)) hdev
        rcases hloop : plasticLoop powf w n es with err | r
        · have hcons : plasticLoop powf w n (e :: es) = .error err := by
            simp only [plasticLoop_cons, he, hloop, exceptBind_ok, exceptBind_err]
          refine ⟨⟨?_, ?_⟩, ?_⟩
          · intro herr
            rw [hcons] at herr
            injection herr with h1
            obtain ⟨x, hx, hxo⟩ := ih1.mp (h1 ▸ hloop)
            exact ⟨x, by simp [hx], hxo⟩
          · intro ⟨x, hx, hxo⟩
            rcases List.mem_cons.mp hx with rfl | hx2
            · exact absurd hdev hxo
            · have h2 := ih1.mpr ⟨x, hx2, hxo⟩
              rw [hloop] at h2
              injection h2 with h1
              rw [hcons, h1]
          · intro hall
            obtain ⟨r2, hr⟩ := ih2 (fun x hx => hall x (by simp [hx]))
            rw [hloop] at hr
            exact absurd hr (by simp)
        · obtain ⟨es1, ex2, inh2⟩ := r
          have hcons : plasticLoop powf w n (e :: es) =
              .ok (e1 :: es1, ex + ex2, inh + inh2) := by
            simp only [plasticLoop_cons, he, hloop, exceptBind_ok]
          refine ⟨⟨?_, ?_⟩, fun _ => ⟨_, hcons⟩⟩
          · intro herr
            rw [hcons] at herr
            exact absurd herr (by simp)
          · intro ⟨x, hx, hxo⟩
            rcases List.mem_cons.mp hx with rfl | hx2
            · exact absurd hdev hxo
            · have h2 := ih1.mpr ⟨x, hx2, hxo⟩
              rw [hloop] at h2
              exact absurd h2 (by simp)
      · have he : plasticLoad powf w n e = .error SimError.assertionFailed := by
          simp only [plasticLoad, if_neg hdev]
        have hcons : plasticLoop powf w n (e :: es)
            = .error SimError.assertionFailed := by
          simp only [plasticLoop_cons, he, exceptBind_err]
        exact ⟨⟨fun _ => ⟨e, by simp, hdev⟩, fun _ => hcons⟩,
          fun hall => absurd (hall e (by simp)) hdev⟩

/-- C9: for a well-formed neuron, the input-aggregation phase of the very
next `__step__` fails with the fatal `assert False` exactly when some
plastic-bucket source device is current-valued (`otype != 'Spikes'`), and
when every plastic source is spike-valued the step never hits the
assertion and completes. -/
theorem C9_plastic_current_assert (expf : ℚ → ℚ) (powf : ℚ → ℚ → ℚ)
    (w : World) (n : LIFState) (it : ℕ) (hwf : wfBuckets w n) :
    (stepLIF expf powf w n it = .error SimError.assertionFailed
        ↔ ∃ e ∈ n.plastic, (getDev w e.device).otype ≠ OType.spikesT) ∧
      ((∀ e ∈ n.plastic, (getDev w e.device).otype = OType.spikesT) →
        ∃ n1, stepLIF expf powf w n it = .ok n1) := by
  obtain ⟨hc, hg, hp⟩ := hwf
  obtain ⟨⟨chem1, ex, inh, cur⟩, hchem⟩ := chemLoop_ok w n.chem hc
  obtain ⟨dvGap, hgap⟩ := gapLoop_ok w n it n.gap hg
  obtain ⟨hiff, hok⟩ := plasticLoop_spec powf w n n.plastic hp
  rcases hloop : plasticLoop powf w n n.plastic with err | r
  · have hstep : stepLIF expf powf w n it = .error err := by
      simp only [stepLIF, loadIn, hchem, hgap, hloop, exceptBind_ok, exceptBind_err]
    refine ⟨⟨?_, ?_⟩, ?_⟩
    · intro herr
      rw [hstep] at herr
      injection herr with h1
      exact hiff.mp (h1 ▸ hloop)
    · intro hex
      have h2 := hiff.mpr hex
      rw [hloop] at h2
      injection h2 with h1
      rw [hstep, h1]
    · intro hall
      obtain ⟨r2, hr⟩ := hok hall
      rw [hloop] at hr
      exact absurd hr (by simp)
  · obtain ⟨plas1, ex2, inh2⟩ := r
    have hstep : stepLIF expf powf w n it
        = .ok (stepCore expf
            ({ n with chem := chem1, plastic := plas1 }) it
            (ex + ex2, inh + inh2, cur, dvGap)) := by
      simp only [stepLIF, loadIn, hchem, hgap, hloop, exceptBind_ok]
    refine ⟨⟨?_, ?_⟩, fun _ => ⟨_, hstep⟩⟩
    · intro herr
      rw [hstep] at herr
      exact absurd herr (by simp)
    · intro hex
      have h2 := hiff.mpr hex
      rw [hloop] at h2
      exact absurd h2 (by simp)

/-- C9 witness: a current injector wired into a Hebbian (plastic) synapse of
an otherwise empty neuron makes the next step fail with the assertion. -/
theorem C9_plastic_current_assert_witness :
    stepLIF (fun _ => 0) (fun a _ => a)
        [DevState.currentSrc {}, DevState.lif {}]
        { plastic := [{ device := 0, syn := Syn.hebb {} }] } 0
      = .error SimError.assertionFailed :=
  (C9_plastic_current_assert (fun _ => 0) (fun a _ => a)
      [DevState.currentSrc {}, DevState.lif {}]
      { plastic := [{ device := 0, syn := Syn.hebb {} }] } 0
      (by refine ⟨?_, ?_, ?_⟩ <;> simp [Syn.stype, getDev, DevState.vArr])).1.mpr
    ⟨{ device := 0, syn := Syn.hebb {} }, by simp, by simp [getDev, DevState.otype]⟩

/-! ## C3: `Simulator.connect` -/

/-- Synapse class tags for `synspec['ctype']` (Static, Gap, Faci, Depr,
Hebb, Comp, STDP). -/
inductive CType where
  | staticC
  | gapCT
  | faciC
  | deprC
  | hebbC
  | compC
  | stdpC
deriving DecidableEq

/-- A synapse-construction spec (the dict handed to `LIF.connect`): `ctype`,
the mandatory `weight`, and an optional `delay` override; the remaining
per-class parameters keep their class defaults here (a spec dict may
override them too, but no claim exercises that, and unknown keys are
silently ignored by the source). -/
structure SynSpec where
  ctype : CType
  weight : ℚ
  delay : Option ℚ := none
deriving DecidableEq

/-- `globals()[synspec['ctype'] + 'Con'](synspec)`: instantiate the class
named by `ctype` with the spec's overrides applied over the class defaults
(`__init__` then records the initial weight history / `prel`). -/
def mkSyn (sp : SynSpec) : Syn :=
  let wt := sp.weight
  let dl := sp.delay.getD 5
  match sp.ctype with
  | .staticC => .static { weight := wt, delay := dl, weights := [wt] }
  | .gapCT => .gapC { weight := wt }
  | .faciC => .faci { weight := wt, delay := dl }
  | .deprC => .depr { weight := wt, delay := dl }
  | .hebbC => .hebb { weight := wt, delay := dl, weights := [wt] }
  | .compC => .comp { weight := wt, delay := dl, weights := [wt] }
  | .stdpC => .stdp { weight := wt, delay := dl, weights := [wt] }

/-- Python list read `l[i]`: IndexError when out of range (indices here are
never negative). -/
def pyGet {α : Type} (l : List α) (i : ℕ) : Except SimError α :=
  match l.get? i with
  | some x => .ok x
  | none => .error .indexError

/-- Python list write `l[i] = x`: IndexError when out of range. -/
def pySet {α : Type} (l : List α) (i : ℕ) (x : α) : Except SimError (List α) :=
  if i < l.length then .ok (l.set i x) else .error .indexError

/-- The assignment `cons[i][j] = x`. -/
def pySetMatrix (m : List (List (Option Syn))) (i j : ℕ) (x : Option Syn) :
    Except SimError (List (List (Option Syn))) := do
  let row ← pyGet m i
  let row1 ← pySet row j x
  .ok (m.set i row1)

/-- `LIF.connect(device, synspec)` for the neuron at registry position
`tarIdx`: when `synspec['weight'] != 0` build the synapse, append
`{'device': …, 'syn': …}` to the bucket `inp[syn.stype]` and return the
synapse, else return `None`.  Calling it on a device without a `connect`
method is an AttributeError. -/
def connectDevice (w : World) (tarIdx srcIdx : ℕ) (sp : SynSpec) :
    Except SimError (World × Option Syn) :=
  match getDev w tarIdx with
  | .lif n =>
      if sp.weight ≠ 0 then
        let syn := mkSyn sp
        let entry : ConnEntry := { device := srcIdx, syn := syn }
        let n1 :=
          match syn.stype with
          | .chemS => { n with chem := n.chem ++ [entry] }
          | .gapS => { n with gap := n.gap ++ [entry] }
          | .plasticS => { n with plastic := n.plastic ++ [entry] }
        .ok (w.set tarIdx (.lif n1), some syn)
      else .ok (w, none)
  | _ => .error .attributeError

/-- The inner loop of `Simulator.connect` at fixed row `i`
(`for j in range(M)` with `fuel` iterations left): the right-hand side
`tar[i].connect(src[j], synspecs[i][j])` is evaluated first (with its
indexings), then the assignment `cons[i][j] = …` is performed. -/
def connectInner (tar src : List ℕ) (synspecs : List (List SynSpec)) (i : ℕ) :
    World → List (List (Option Syn)) → ℕ → ℕ →
      Except SimError (World × List (List (Option Syn)))
  | w0, cons, _, 0 => .ok (w0, cons)
  | w0, cons, j, fuel + 1 => do
      let ti ← pyGet tar i
      let sj ← pyGet src j
      let row ← pyGet synspecs i
      let sp ← pyGet row j
      let (w1, syn) ← connectDevice w0 ti sj sp
      let cons1 ← pySetMatrix cons i j syn
      connectInner tar src synspecs i w1 cons1 (j + 1) fuel

/-- The outer loop of `Simulator.connect` (`for i in range(N)`). -/
def connectOuter (tar src : List ℕ) (synspecs : List (List SynSpec)) :
    World → List (List (Option Syn)) → ℕ → ℕ →
      Except SimError (World × List (List (Option Syn)))
  | w0, cons, _, 0 => .ok (w0, cons)
  | w0, cons, i, fuel + 1 => do
      let (w1, cons1) ← connectInner tar src synspecs i w0 cons 0 src.length
      connectOuter tar src synspecs w1 cons1 (i + 1) fuel

/-- `Simulator.connect(src, tar, synspecs)`: `M, N = len(src), len(tar)`;
`cons = [[None for _ in range(N)] for _ in range(M)]` — an M-row × N-column
matrix, although the loops index it as `cons[i][j]` with `i < N`, `j < M`;
then the nested loops.  Populations are given as registry positions. -/
def simConnect (w : World) (src tar : List ℕ)
    (synspecs : List (List SynSpec)) :
    Except SimError (World × List (List (Option Syn))) :=
  let M := src.length
  let N := tar.length
  let cons : List (List (Option Syn)) := List.replicate M (List.replicate N none)
  connectOuter tar src synspecs w cons 0 N

/-- C3: the claim says `Simulator.connect` validates the spec-matrix shape
(failing fast with a descriptive validation error on mismatch, and never
silently truncating) and returns the N×M handle matrix on matching shapes.
The code does neither: (1) with M = 1 source and N = 2 targets and a
correctly shaped 2×1 spec matrix, the result matrix is allocated transposed
(M×N, i.e. 1×2), so writing `cons[1][0]` raises a bare IndexError and no
matrix is returned; (2) with M = N = 1 and an oversized 2×2 spec matrix,
connect succeeds silently, ignoring the extra spec entries, instead of
raising a validation error. -/
theorem C3_connect_shape_bug :
    simConnect [DevState.lif {}, DevState.lif {}, DevState.lif {}] [0] [1, 2]
        [[{ ctype := CType.staticC, weight := 5 }],
         [{ ctype := CType.staticC, weight := 5 }]]
      = .error SimError.indexError ∧
    (simConnect [DevState.lif {}, DevState.lif {}] [0] [1]
        [[{ ctype := CType.staticC, weight := 5 },
          { ctype := CType.staticC, weight := 5 }],
         [{ ctype := CType.staticC, weight := 5 },
          { ctype := CType.staticC, weight := 5 }]]).isOk = true := by
  constructor
  · norm_num [simConnect, connectOuter, connectInner, pyGet, pySet, pySetMatrix,
      connectDevice, getDev, mkSyn, Syn.stype, exceptBind_ok, exceptBind_err]
  · norm_num [simConnect, connectOuter, connectInner, pyGet, pySet, pySetMatrix,
      connectDevice, getDev, mkSyn, Syn.stype, exceptBind_ok, exceptBind_err,
      Except.isOk, Except.toBool]

/-! ## C8: registration order is visible to the dynamics -/

/-- A static, zero-delay, weight-5 synapse used by the order scenario. -/
def synB8 : Syn := .static { weight := 5, delay := 0, weights := [5] }

/-- A deterministic spike source firing exactly at step 1. -/
def devSrc8 : DevState := .spikeSrc { train := pulse 1 }

/-- Target neuron when it is registered after the source (the source sits at
registry position 0).  `delatT = 0` makes the `dv_inj` term
`0 * expf(…) = 0` for every exponential oracle (as in numpy, where the
potentials stay below `v_rh` and `0 * exp(-inf) = 0`), so the scenario does
not depend on the oracle. -/
def devB8A : DevState :=
  .lif { prm := { delatT := 0 }, idx := 1, chem := [{ device := 0, syn := synB8 }] }

/-- The same target neuron when it is registered before the source (which
then sits at registry position 1). -/
def devB8B : DevState :=
  .lif { prm := { delatT := 0 }, idx := 0, chem := [{ device := 1, syn := synB8 }] }

/-- C8 counterexample: the same two devices and the same connection, in the
two registration orders, produce different `gE` trajectories: with the
source registered first the neuron sees the source's step-1 spike at step 1
and `gE[2] = gE_bar * 5 = 15`; with the source registered last the neuron
reads the source's stale step-0 output at step 1 and `gE[2] = 0`.  The
trajectories are not registration-order independent. -/
theorem C8_counterexample :
    (runSim (fun _ => 0) (fun a _ => a) 1 [devSrc8, devB8A] 3).map
        (fun w => (lifAt w 1).gE) = .ok [0, 0, 15] ∧
      (runSim (fun _ => 0) (fun a _ => a) 1 [devB8B, devSrc8] 3).map
        (fun w => (lifAt w 0).gE) = .ok [0, 0, 0] ∧
      ([0, 0, 15] : List ℚ) ≠ [0, 0, 0] := by
  refine ⟨?_, ?_, by norm_num⟩
  · norm_num [runSim, pyIntNat, stepLoop, stepAll, stepSeq, stepDevice, stepLIF,
      loadIn, chemLoop, chemLoad, gapLoop, plasticLoop, initsimDev, initsimLIF,
      initsimSpikeSrc, bufferFor, bufCap, deqPushLeft, deqTail, getDev,
      DevState.otype, DevState.spikeOut, DevState.dtOut, Syn.updateChem,
      Syn.delayAttr, StaticCon.update, fireCheck, eulerTail, stepCore,
      muvUpdate, lifAt, pulse, devSrc8, devB8A, synB8, exceptBind_ok,
      exceptBind_err, Except.map]
    rfl
  · norm_num [runSim, pyIntNat, stepLoop, stepAll, stepSeq, stepDevice, stepLIF,
      loadIn, chemLoop, chemLoad, gapLoop, plasticLoop, initsimDev, initsimLIF,
      initsimSpikeSrc, bufferFor, bufCap, deqPushLeft, deqTail, getDev,
      DevState.otype, DevState.spikeOut, DevState.dtOut, Syn.updateChem,
      Syn.delayAttr, StaticCon.update, fireCheck, eulerTail, stepCore,
      muvUpdate, lifAt, pulse, devSrc8, devB8B, synB8, exceptBind_ok,
      exceptBind_err, Except.map]
    rfl

/-- Unfolding of one scheduler pass over a two-device registry: the second
device is stepped against the world in which the first has already been
updated. -/
theorem stepAll_pair (expf : ℚ → ℚ) (powf : ℚ → ℚ → ℚ)
    (d0 d1 : DevState) (it : ℕ) :
    stepAll expf powf [d0, d1] it =
      stepDevice expf powf [d0, d1] d0 it >>= (fun d0s =>
        stepDevice expf powf [d0s, d1] d1 it >>= (fun d1s =>
          Except.ok [d0s, d1s])) := by
  show stepSeq expf powf it [d0, d1] 0 2 = _
  rcases h0 : stepDevice expf powf [d0, d1] d0 it with e0 | d0s
  · simp only [stepSeq, getDev, List.getD_cons_zero, h0, exceptBind_err]
  · simp only [stepSeq, getDev, List.getD_cons_zero, h0, exceptBind_ok]
    rcases h1 : stepDevice expf powf [d0s, d1] d1 it with e1 | d1s
    · simp only [List.set_cons_zero, stepSeq, getDev, List.getD_cons_succ,
        List.getD_cons_zero, h1, exceptBind_err]
    · simp only [List.set_cons_zero, stepSeq, getDev, List.getD_cons_succ,
        List.getD_cons_zero, h1, exceptBind_ok, List.set_cons_succ]

/-- C8 amended: within one scheduler pass, devices are stepped sequentially
in registration order on the shared mutable registry, so a device's
`__step__` observes the **current** step's output of every device registered
before it and the **previous** step's output of every device registered
after it (for a two-device registry, the second device steps against the
world in which the first has already been updated).  Trajectories therefore
depend on the registration order, as the counterexample's `gE` values show. -/
theorem C8_amended_sequential_visibility (expf : ℚ → ℚ) (powf : ℚ → ℚ → ℚ)
    (d0 d1 : DevState) (it : ℕ) :
    stepAll expf powf [d0, d1] it =
      stepDevice expf powf [d0, d1] d0 it >>= (fun d0s =>
        stepDevice expf powf [d0s, d1] d1 it >>= (fun d1s =>
          Except.ok [d0s, d1s])) :=
  stepAll_pair expf powf d0 d1 it

/-! ## C7: rerunning after re-initialization -/

/-- The per-device data that `__initsim__` does **not** reset: parameters,
identity, the connection topology with the live synapse objects (their
weights, release probabilities, traces and histories), the neuron's running
rate estimate `rt`, a Poisson source's seeded train, and a current
injector's parameters and last published `current`.  (Gap entries keep
their — never allocated — buffer, so they are carried whole.) -/
inductive PersistData where
  | lifP (prm : LIFParams) (idx : ℕ) (rt : ℚ) (chem : List (ℕ × Syn))
      (gap : List ConnEntry) (plastic : List (ℕ × Syn)) : PersistData
  | spikeP (train : ℕ → ℚ) (idx : ℕ) : PersistData
  | currentP (rate : ℚ) (start stop : ℕ) (idx : ℕ) (current : ℚ) : PersistData

/-- Project a device onto its `__initsim__`-surviving part. -/
def persistDev : DevState → PersistData
  | .lif n => .lifP n.prm n.idx n.rt (n.chem.map (fun e => (e.device, e.syn)))
      n.gap (n.plastic.map (fun e => (e.device, e.syn)))
  | .spikeSrc s => .spikeP s.train s.idx
  | .currentSrc s => .currentP s.rate s.start s.stop s.idx s.current

theorem reseedMap_congr (dt : ℚ) (l1 l2 : List ConnEntry)
    (h : l1.map (fun e => (e.device, e.syn)) = l2.map (fun e => (e.device, e.syn))) :
    l1.map (fun e => { e with buffer := bufferFor e.syn.delayAttr dt }) =
      l2.map (fun e => { e with buffer := bufferFor e.syn.delayAttr dt }) := by
  induction l1 generalizing l2 with
  | nil =>
      cases l2 with
      | nil => rfl
      | cons b bs => simp at h
  | cons a as ih =>
      cases l2 with
      | nil => simp at h
      | cons b bs =>
          simp only [List.map_cons, List.cons.injEq, Prod.mk.injEq] at h ⊢
          obtain ⟨⟨hd, hs⟩, htail⟩ := h
          exact ⟨by rw [hd, hs], ih bs htail⟩

theorem initsimDev_persist (Lt : ℕ) (dt : ℚ) (d1 d2 : DevState)
    (h : persistDev d1 = persistDev d2) :
    initsimDev Lt dt d1 = initsimDev Lt dt d2 := by
  cases d1 with
  | lif n1 =>
      cases d2 with
      | lif n2 =>
          simp only [persistDev, PersistData.lifP.injEq] at h
          obtain ⟨hprm, hidx, hrt, hchem, hgap, hplas⟩ := h
          simp only [initsimDev, DevState.lif.injEq, initsimLIF]
          obtain ⟨⟩ := n1
          obtain ⟨⟩ := n2
          simp only at hprm hidx hrt hchem hgap hplas
          simp only [LIFState.mk.injEq]
          rw [hprm, hidx, hrt, hgap, reseedMap_congr dt _ _ hchem,
            reseedMap_congr dt _ _ hplas]
          simp
      | spikeSrc s2 => simp [persistDev] at h
      | currentSrc s2 => simp [persistDev] at h
  | spikeSrc s1 =>
      cases d2 with
      | lif n2 => simp [persistDev] at h
      | spikeSrc s2 =>
          simp only [persistDev, PersistData.spikeP.injEq] at h
          obtain ⟨htrain, hidx⟩ := h
          obtain ⟨⟩ := s1
          obtain ⟨⟩ := s2
          simp only at htrain hidx
          simp only [initsimDev, DevState.spikeSrc.injEq, initsimSpikeSrc,
            SpikeSrcState.mk.injEq]
          rw [htrain, hidx]
          simp
      | currentSrc s2 => simp [persistDev] at h
  | currentSrc s1 =>
      cases d2 with
      | lif n2 => simp [persistDev] at h
      | spikeSrc s2 => simp [persistDev] at h
      | currentSrc s2 =>
          simp only [persistDev, PersistData.currentP.injEq] at h
          obtain ⟨hrate, hstart, hstop, hidx, hcur⟩ := h
          obtain ⟨⟩ := s1
          obtain ⟨⟩ := s2
          simp only at hrate hstart hstop hidx hcur
          simp only [initsimDev, DevState.currentSrc.injEq, initsimCurrentSrc,
            CurrentSrcState.mk.injEq]
          rw [hrate, hstart, hstop, hidx, hcur]
          simp

theorem map_congr_of_persist (f : DevState → DevState)
    (hf : ∀ a b, persistDev a = persistDev b → f a = f b) :
    ∀ l1 l2 : List DevState,
      l1.map persistDev = l2.map persistDev → l1.map f = l2.map f := by
  intro l1
  induction l1 with
  | nil =>
      intro l2 h
      cases l2 with
      | nil => rfl
      | cons b bs => simp at h
  | cons a as ih =>
      intro l2 h
      cases l2 with
      | nil => simp at h
      | cons b bs =>
          simp only [List.map_cons, List.cons.injEq] at h ⊢
          exact ⟨hf a b h.1, ih bs h.2⟩

/-- C7 amended: the run pipeline (`__initsim__` on every device followed by
the step loop) is a pure function of each device's persistent part — the
parameters, topology, synapse objects, the neuron's `rt` and a current
source's last output — together with `(T, dt)`: `__initsim__` freshly
reallocates all state arrays, the refractory counter, spike flag, spike
records, mean-potential estimate and delay deques.  Two runs therefore
produce bit-identical results whenever every synapse's internal state (and
`rt`/`current`) matches at their starts; the counterexample shows this
failing for a facilitating synapse whose `prel` the first run moved. -/
theorem C7_run_determined_by_persist (expf : ℚ → ℚ) (powf : ℚ → ℚ → ℚ)
    (dt T : ℚ) (w1 w2 : World)
    (h : w1.map persistDev = w2.map persistDev) :
    runSim expf powf dt w1 T = runSim expf powf dt w2 T := by
  rw [runSim, runSim]
  rw [map_congr_of_persist (initsimDev (List.range (pyIntNat (T / dt))).length dt)
    (fun a b hab => initsimDev_persist _ dt a b hab) w1 w2 h]

/-- C7 amended witness: two one-neuron registries that differ only in
per-run state (`v` array, refractory counter, spike flag and record) have
the same persistent part and produce identical runs. -/
theorem C7_run_determined_by_persist_witness :
    ([DevState.lif { v := [1, 2, 3], tr := 5, spike := 1, spikeTimes := [7] }]
        : World).map persistDev = ([DevState.lif {}] : World).map persistDev ∧
      runSim (fun _ => 0) (fun a _ => a) 1
          [DevState.lif { v := [1, 2, 3], tr := 5, spike := 1, spikeTimes := [7] }] 5
        = runSim (fun _ => 0) (fun a _ => a) 1 [DevState.lif {}] 5 :=
  ⟨rfl, C7_run_determined_by_persist (fun _ => 0) (fun a _ => a) 1 5 _ _ rfl⟩

/-- A neuron that fires immediately (`V_init = V_th`); `delatT = 0` keeps
the scenario independent of the exponential oracle. -/
def devA7 : DevState := .lif { prm := { V_init := -40, delatT := 0 }, idx := 0 }

/-- A facilitating synapse with weight 1 and no delay (class defaults
`p_init = 1/2`, `fF = 1/2`, `tau_FP = 1000`; `__init__` sets
`prel = p_init`). -/
def synB7 : Syn := .faci { weight := 1, delay := 0 }

/-- The neuron receiving `devA7` through the facilitating synapse. -/
def devB7 : DevState :=
  .lif { prm := { delatT := 0 }, idx := 1, chem := [{ device := 0, syn := synB7 }] }

/-- C7 counterexample: running the same non-stochastic two-neuron network
(`devA7` firing into `devB7` through a facilitating synapse) a second time,
with `initialize-for-run` invoked again with the identical `(L, dt)`, does
not reproduce the first trajectory: the first run ends with
`gE = [0, 9/2]` on the target, the rerun ends with `gE = [0, 11997/2000]`,
because `__initsim__` does not reset the synapse's release probability
`prel`, which the first run's spike moved from `1/2` to `3/4`. -/
theorem C7_counterexample :
    (runSim (fun _ => 0) (fun a _ => a) 1 [devA7, devB7] 2).map
        (fun w => (lifAt w 1).gE) = .ok [0, 9/2] ∧
      ((runSim (fun _ => 0) (fun a _ => a) 1 [devA7, devB7] 2).bind
          (fun w1 => runSim (fun _ => 0) (fun a _ => a) 1 w1 2)).map
        (fun w => (lifAt w 1).gE) = .ok [0, 11997/2000] ∧
      ([0, (9 : ℚ)/2] : List ℚ) ≠ [0, 11997/2000] := by
  refine ⟨?_, ?_, by norm_num⟩
  · norm_num [runSim, pyIntNat, stepLoop, stepAll, stepSeq, stepDevice, stepLIF,
      loadIn, chemLoop, chemLoad, gapLoop, plasticLoop, initsimDev, initsimLIF,
      bufferFor, bufCap, deqPushLeft, deqTail, getDev, DevState.otype,
      DevState.spikeOut, DevState.dtOut, Syn.updateChem, Syn.delayAttr,
      FaciCon.update, fireCheck, eulerTail, stepCore, muvUpdate, lifAt,
      devA7, devB7, synB7, exceptBind_ok, exceptBind_err, Except.map]
    rfl
  · norm_num [runSim, pyIntNat, stepLoop, stepAll, stepSeq, stepDevice, stepLIF,
      loadIn, chemLoop, chemLoad, gapLoop, plasticLoop, initsimDev, initsimLIF,
      bufferFor, bufCap, deqPushLeft, deqTail, getDev, DevState.otype,
      DevState.spikeOut, DevState.dtOut, Syn.updateChem, Syn.delayAttr,
      FaciCon.update, fireCheck, eulerTail, stepCore, muvUpdate, lifAt,
      devA7, devB7, synB7, exceptBind_ok, exceptBind_err, Except.map,
      Except.bind]
    rfl

/-! ## C6: a resting pair of neurons -/

theorem getD_set_q (l : List ℚ) (j i : ℕ) (x : ℚ) :
    (l.set j x).getD i 0 = if i = j ∧ i < l.length then x else l.getD i 0 := by
  rcases eq_or_ne i j with rfl | hne
  · by_cases hl : i < l.length
    · simp [List.getD_eq_getElem?_getD, List.getElem?_set, hl]
    · simp [List.getD_eq_getElem?_getD, List.getElem?_set, hl,
        List.getElem?_eq_none (by omega : l.length ≤ i)]
  · simp [List.getD_eq_getElem?_getD, List.getElem?_set, hne, Ne.symm hne]

theorem getD_replicate_q (L i : ℕ) (x : ℚ) :
    (List.replicate L x).getD i 0 = if i < L then x else 0 := by
  by_cases h : i < L
  · simp [List.getD_eq_getElem?_getD, List.getElem?_replicate, h]
  · simp [List.getD_eq_getElem?_getD, List.getElem?_replicate, h]

theorem stepLoop_nil (expf : ℚ → ℚ) (powf : ℚ → ℚ → ℚ) (w : World) :
    stepLoop expf powf w [] = .ok w := rfl

theorem stepLoop_cons (expf : ℚ → ℚ) (powf : ℚ → ℚ → ℚ) (w : World)
    (it : ℕ) (rest : List ℕ) :
    stepLoop expf powf w (it :: rest) =
      stepAll expf powf w it >>= (fun w1 => stepLoop expf powf w1 rest) := rfl

/-- `__load_in__` on a neuron with no inbound connections returns zero
aggregates and leaves the neuron unchanged up to the (empty) buckets. -/
theorem loadIn_empty (powf : ℚ → ℚ → ℚ) (w : World) (n : LIFState) (it : ℕ)
    (hc : n.chem = []) (hg : n.gap = []) (hp : n.plastic = []) :
    loadIn powf w n it
      = .ok ({ n with chem := [], plastic := [] }, 0 + 0, 0 + 0, 0, 0) := by
  rw [loadIn, hc, hg, hp]
  rfl

/-- The C6 scenario parameters: `V_init = -70`, `V_th = -40`, `E_L = -70`,
and all three adaptation terms off (`a = b = 0` and `delatT = 0`, the
exponential spike-onset scale, which the source lists in its adaptation
block); no synapses are attached, so every synaptic contribution is zero. -/
def prm6 : LIFParams :=
  { V_init := -70, V_th := -40, E_L := -70, a := 0, b := 0, delatT := 0 }

/-- The C6 registry: two unconnected LIF neurons. -/
def world6 : World :=
  [.lif { prm := prm6, idx := 0 }, .lif { prm := prm6, idx := 1 }]

/-- Invariant for a C6 neuron after `k` completed steps of a run of length
`L`: the potential trace is `-70` up to sample `k` and still the fresh `0`
beyond it, the conductance and adaptation arrays are identically zero, no
spike has been recorded, and the neuron is not refractory. -/
def P6 (dt : ℚ) (L k : ℕ) (n : LIFState) : Prop :=
  n.prm = prm6 ∧ n.dt = dt ∧ n.chem = [] ∧ n.gap = [] ∧ n.plastic = [] ∧
    n.tr = 0 ∧ n.spikeTimes = [] ∧ n.v.length = L ∧
    (∀ i < L, n.v.getD i 0 = if i ≤ k then -70 else 0) ∧
    n.gE = List.replicate L 0 ∧ n.gI = List.replicate L 0 ∧
    n.w = List.replicate L 0

theorem step6 (expf : ℚ → ℚ) (powf : ℚ → ℚ → ℚ) (wAny : World) (dt : ℚ)
    (L k : ℕ) (hk : k < L) (n : LIFState) (hP : P6 dt L k n) :
    ∃ n1, stepLIF expf powf wAny n k = .ok n1 ∧ P6 dt L (k + 1) n1 := by
  obtain ⟨hprm, hdt2, hc, hg, hp, htr, hst, hvl, hv, hge, hgi, hw⟩ := hP
  obtain ⟨prm, idx, dtv, Ltv, states, v, dv, gE, gI, w, mu, tr, spike, rt,
    stimes, ssend, chem, gap, plastic⟩ := n
  simp only at hprm hdt2 hc hg hp htr hst hvl hv hge hgi hw
  subst hprm hdt2 hc hg hp htr hst hge hgi hw
  have hvk : v.getD k 0 = -70 := by rw [hv k hk]; simp
  have hvk2 : v[k]?.getD 0 = -70 := by
    rw [← List.getD_eq_getElem?_getD]
    exact hvk
  refine ⟨⟨prm6, idx, dtv, Ltv, states.set k 0, (v.set (k + 1) (-70)),
    dv.set (k + 1) 0, List.replicate L 0, List.replicate L 0,
    List.replicate L 0, muvUpdate mu (v.set (k + 1) (-70)) (dtv / 1000),
    0, 0, rt, [], ssend, [], [], []⟩, ?_, ?_⟩
  · rw [stepLIF, loadIn_empty powf wAny _ k rfl rfl rfl, exceptBind_ok]
    norm_num [stepCore, fireCheck, eulerTail, prm6, hvk, hvk2,
      getD_replicate_q, List.set_replicate_self]
  · refine ⟨rfl, rfl, rfl, rfl, rfl, rfl, rfl, ?_, ?_, rfl, rfl, rfl⟩
    · simpa using hvl
    · intro i hi
      simp only
      rw [getD_set_q]
      rcases eq_or_ne i (k + 1) with rfl | hne
      · rw [if_pos ⟨rfl, by omega⟩, if_pos (le_refl _)]
      · rw [if_neg (by tauto), hv i hi]
        by_cases hik : i ≤ k
        · rw [if_pos hik, if_pos (by omega)]
        · rw [if_neg hik, if_neg (by omega)]

theorem run6_aux (expf : ℚ → ℚ) (powf : ℚ → ℚ → ℚ) (dt : ℚ) (L : ℕ) :
    ∀ m k, k + m ≤ L - 1 →
      ∀ na nb, P6 dt L k na → P6 dt L k nb →
        ∃ na2 nb2,
          stepLoop expf powf [.lif na, .lif nb] (List.range' k m)
              = .ok [.lif na2, .lif nb2]
            ∧ P6 dt L (k + m) na2 ∧ P6 dt L (k + m) nb2 := by
  intro m
  induction m with
  | zero =>
      intro k hk na nb ha hb
      exact ⟨na, nb, stepLoop_nil expf powf _, by simpa using ha, by simpa using hb⟩
  | succ m ih =>
      intro k hk na nb ha hb
      obtain ⟨na1, hna1, hPa1⟩ :=
        step6 expf powf [.lif na, .lif nb] dt L k (by omega) na ha
      obtain ⟨nb1, hnb1, hPb1⟩ :=
        step6 expf powf [.lif na1, .lif nb] dt L k (by omega) nb hb
      obtain ⟨na2, nb2, hloop, hPa2, hPb2⟩ := ih (k + 1) (by omega) na1 nb1 hPa1 hPb1
      have hA : stepDevice expf powf [.lif na, .lif nb] (.lif na) k
          = .ok (.lif na1) := by
        simp only [stepDevice, hna1, exceptBind_ok]
      have hB : stepDevice expf powf [.lif na1, .lif nb] (.lif nb) k
          = .ok (.lif nb1) := by
        simp only [stepDevice, hnb1, exceptBind_ok]
      refine ⟨na2, nb2, ?_, ?_, ?_⟩
      · rw [List.range'_succ, stepLoop_cons, stepAll_pair, hA, exceptBind_ok,
          hB, exceptBind_ok, exceptBind_ok, hloop]
      · have he : k + (m + 1) = (k + 1) + m := by omega
        rw [he]
        exact hPa2
      · have he : k + (m + 1) = (k + 1) + m := by omega
        rw [he]
        exact hPb2

theorem init6 (dt : ℚ) (L : ℕ) (hL : 1 ≤ L) (i : ℕ) :
    P6 dt L 0 (initsimLIF { prm := prm6, idx := i } L dt) := by
  refine ⟨rfl, rfl, rfl, rfl, rfl, rfl, rfl, by simp [initsimLIF], ?_,
    rfl, rfl, rfl⟩
  intro j hj
  simp only [initsimLIF]
  rw [getD_set_q]
  rcases Nat.eq_zero_or_pos j with rfl | hjpos
  · rw [if_pos ⟨rfl, by simpa using hL⟩]
    simp [prm6]
  · rw [if_neg (by omega), getD_replicate_q, if_pos hj, if_neg (by omega)]

/-- C6: two unconnected LIF neurons with `V_init = -70`, `V_th = -40`,
`E_L = -70` and the synaptic and adaptation terms all zero (no inbound
connections; `a = b = 0`; `delatT = 0`, so the exponential onset term
vanishes for every exponential oracle): a run of any length `T` keeps both
potential traces identically at `-70` on every recorded sample and leaves
both `spikes['times']` records empty.  (`dt ≤ 1` keeps the auxiliary
`states` array, of length `int(Lt/dt)`, long enough for every step index,
and `1 ≤ int(T/dt)` makes the run one Python executes without an
IndexError at `v[0]`.) -/
theorem C6_resting_pair (expf : ℚ → ℚ) (powf : ℚ → ℚ → ℚ) (dt T : ℚ)
    (hdt : 0 < dt) (hdt1 : dt ≤ 1) (hL : 1 ≤ pyIntNat (T / dt)) :
    ∃ wf, runSim expf powf dt world6 T = .ok wf ∧
      ((∀ i < pyIntNat (T / dt), (lifAt wf 0).v.getD i 0 = -70) ∧
        (lifAt wf 0).spikeTimes = []) ∧
      ((∀ i < pyIntNat (T / dt), (lifAt wf 1).v.getD i 0 = -70) ∧
        (lifAt wf 1).spikeTimes = []) := by
  obtain ⟨na2, nb2, hloop, hPa, hPb⟩ :=
    run6_aux expf powf dt (pyIntNat (T / dt)) (pyIntNat (T / dt) - 1) 0
      (by omega)
      (initsimLIF { prm := prm6, idx := 0 } (pyIntNat (T / dt)) dt)
      (initsimLIF { prm := prm6, idx := 1 } (pyIntNat (T / dt)) dt)
      (init6 dt _ hL 0) (init6 dt _ hL 1)
  refine ⟨[.lif na2, .lif nb2], ?_, ?_, ?_⟩
  · rw [runSim]
    simp only [world6, List.map_cons, List.map_nil, initsimDev]
    rw [List.length_range, dropLast_range, List.range_eq_range']
    exact hloop
  · obtain ⟨_, _, _, _, _, _, hst, _, hv, _⟩ := hPa
    refine ⟨?_, hst⟩
    intro i hi
    have := hv i hi
    rw [if_pos (by omega)] at this
    simpa [lifAt, getDev] using this
  · obtain ⟨_, _, _, _, _, _, hst, _, hv, _⟩ := hPb
    refine ⟨?_, hst⟩
    intro i hi
    have := hv i hi
    rw [if_pos (by omega)] at this
    simpa [lifAt, getDev] using this

/-- C6 witness: the scenario at `dt = 1`, `T = 3`. -/
theorem C6_resting_pair_witness :
    (0 : ℚ) < 1 ∧ (1 : ℚ) ≤ 1 ∧ 1 ≤ pyIntNat ((3 : ℚ) / 1) ∧
      (∃ wf, runSim (fun _ => 0) (fun a _ => a) 1 world6 3 = .ok wf ∧
        ((∀ i < pyIntNat ((3 : ℚ) / 1), (lifAt wf 0).v.getD i 0 = -70) ∧
          (lifAt wf 0).spikeTimes = []) ∧
        ((∀ i < pyIntNat ((3 : ℚ) / 1), (lifAt wf 1).v.getD i 0 = -70) ∧
          (lifAt wf 1).spikeTimes = [])) :=
  ⟨by norm_num, by norm_num, by norm_num [pyIntNat],
    C6_resting_pair (fun _ => 0) (fun a _ => a) 1 3 (by norm_num) (by norm_num)
      (by norm_num [pyIntNat])⟩

/-! ## C2: delay-line timing -/

/-- C2: for a chemical or plastic spike-valued connection with parameters
`delay ≥ 0` and `dt > 0`, writing `D = int(delay/dt)` (the floor):
the deque `__initsim__` builds has capacity `D + 1` and is seeded with
zeros; the tail value `buffer[-1]` read at step `t` is the value pushed at
step `t - D` (or the seed 0 while `t < D`); hence a single spike pushed at
step `k` is first read out — and so first weighed into the target's
excitatory/inhibitory aggregate, as the last conjunct shows for a static
chemical entry — exactly at step `k + D` and never earlier. -/
theorem C2_delay_line (delay dt : ℚ) (hdel : 0 ≤ delay) (hdt : 0 < dt) :
    ((pyIntNat (delay / dt) : ℤ) = ⌊delay / dt⌋) ∧
      bufferFor delay dt = List.replicate (pyIntNat (delay / dt) + 1) 0 ∧
      (∀ s t, readAt delay dt s t =
        if pyIntNat (delay / dt) ≤ t then s (t - pyIntNat (delay / dt)) else 0) ∧
      (∀ k t, t < k + pyIntNat (delay / dt) → readAt delay dt (pulse k) t = 0) ∧
      (∀ k, readAt delay dt (pulse k) (k + pyIntNat (delay / dt)) = 1) ∧
      (∀ (w : World) (srcIdx : ℕ) (c : StaticCon) (buf : List ℚ),
        (getDev w srcIdx).otype = OType.spikesT → 0 < c.weight →
        chemLoad w { device := srcIdx, syn := .static c, buffer := buf } =
          .ok ({ device := srcIdx,
                 syn := .static { c with weights := c.weights ++ [c.weight] },
                 buffer := deqPushLeft buf.length (getDev w srcIdx).spikeOut buf },
            deqTail (deqPushLeft buf.length (getDev w srcIdx).spikeOut buf)
              * c.weight, 0, 0)) := by
  have hq : 0 ≤ delay / dt := div_nonneg hdel hdt.le
  refine ⟨pyIntNat_cast _ hq, ?_, fun s t => readAt_eq delay dt hq s t, ?_, ?_, ?_⟩
  · rw [bufferFor_eq delay dt hq, bufCap]
  · intro k t ht
    rw [readAt_eq delay dt hq]
    by_cases hD : pyIntNat (delay / dt) ≤ t
    · rw [if_pos hD, pulse, if_neg (by omega)]
    · rw [if_neg hD]
  · intro k
    rw [readAt_eq delay dt hq, if_pos (by omega), pulse,
      if_pos (by omega)]
  · intro w srcIdx c buf hsp hw
    rw [chemLoad]
    rw [if_pos hsp]
    simp only [Syn.updateChem, StaticCon.update]
    rw [if_pos hw]

/-- C2 witness: with `delay = 5`, `dt = 1` a pulse pushed at step 2 is read
at the tail at step `2 + int(5/1)`. -/
theorem C2_delay_line_witness :
    (0 : ℚ) ≤ 5 ∧ (0 : ℚ) < 1 ∧
      readAt 5 1 (pulse 2) (2 + pyIntNat ((5 : ℚ) / 1)) = 1 :=
  ⟨by norm_num, by norm_num,
    (C2_delay_line 5 1 (by norm_num) (by norm_num)).2.2.2.2.1 2⟩

/-! ## C4: the refractory invariant -/

/-- Case-split form of the transition rule. -/
theorem fireCheck_eq (n : LIFState) (it : ℕ) :
    fireCheck n it =
      if n.tr > 0 then
        { n with spike := 0, v := n.v.set it n.prm.V_reset, tr := n.tr - 1,
                 states := n.states.set it 0 }
      else if n.v.getD it 0 ≥ n.prm.V_th then
        { n with v := n.v.set it n.prm.V_reset, tr := n.prm.tref / n.dt,
                 spike := 1, spikeTimes := n.spikeTimes ++ [it * n.dt],
                 spikeSenders := n.spikeSenders ++ [n.idx],
                 states := n.states.set it 1 }
      else { n with spike := 0, states := n.states.set it 0 } := by
  rw [fireCheck]
  by_cases h1 : n.tr > 0
  · rw [if_pos h1, if_pos h1]
  · rw [if_neg h1, if_neg h1]
    by_cases h2 : n.v.getD it 0 ≥ n.prm.V_th
    · rw [if_pos h2, if_pos h2]
    · rw [if_neg h2, if_neg h2]

theorem stepCore_tr (expf : ℚ → ℚ) (n : LIFState) (it : ℕ)
    (agg : ℚ × ℚ × ℚ × ℚ) :
    (stepCore expf n it agg).tr = (fireCheck n it).tr := rfl

theorem stepCore_spike (expf : ℚ → ℚ) (n : LIFState) (it : ℕ)
    (agg : ℚ × ℚ × ℚ × ℚ) :
    (stepCore expf n it agg).spike = (fireCheck n it).spike := rfl

theorem stepCore_prm (expf : ℚ → ℚ) (n : LIFState) (it : ℕ)
    (agg : ℚ × ℚ × ℚ × ℚ) :
    (stepCore expf n it agg).prm = n.prm := by
  show (fireCheck n it).prm = n.prm
  rw [fireCheck_eq]
  split_ifs <;> rfl

theorem stepCore_dt (expf : ℚ → ℚ) (n : LIFState) (it : ℕ)
    (agg : ℚ × ℚ × ℚ × ℚ) :
    (stepCore expf n it agg).dt = n.dt := by
  show (fireCheck n it).dt = n.dt
  rw [fireCheck_eq]
  split_ifs <;> rfl

theorem stepCore_v_length (expf : ℚ → ℚ) (n : LIFState) (it : ℕ)
    (agg : ℚ × ℚ × ℚ × ℚ) :
    (stepCore expf n it agg).v.length = n.v.length := by
  show ((fireCheck n it).v.set (it + 1) _).length = n.v.length
  rw [List.length_set, fireCheck_eq]
  split_ifs <;> simp

theorem stepCore_v_getD_it (expf : ℚ → ℚ) (n : LIFState) (it : ℕ)
    (agg : ℚ × ℚ × ℚ × ℚ) :
    (stepCore expf n it agg).v.getD it 0 = (fireCheck n it).v.getD it 0 := by
  show ((fireCheck n it).v.set (it + 1) _).getD it 0 = _
  rw [getD_set_q, if_neg (by omega)]

/-- The neuron trajectory under the post-`__load_in__` tail of
`LIF.__step__` (`stepCore`), with the load-phase aggregates supplied by an
arbitrary per-step input stream (`inputs it` is
`(pre_spike_ex, pre_spike_in, I, dv_gap)` for step `it`): `trajCore … k` is
the state after steps `0, …, k-1`.  The load phase itself only mutates
inbound-connection bookkeeping, which the transition rule never reads. -/
def trajCore (expf : ℚ → ℚ) (inputs : ℕ → ℚ × ℚ × ℚ × ℚ) (n0 : LIFState) :
    ℕ → LIFState
  | 0 => n0
  | k + 1 => stepCore expf (trajCore expf inputs n0 k) k (inputs k)

theorem trajCore_inv (expf : ℚ → ℚ) (inputs : ℕ → ℚ × ℚ × ℚ × ℚ)
    (n0 : LIFState) (k : ℕ) :
    (trajCore expf inputs n0 k).prm = n0.prm ∧
      (trajCore expf inputs n0 k).dt = n0.dt ∧
      (trajCore expf inputs n0 k).v.length = n0.v.length := by
  induction k with
  | zero => exact ⟨rfl, rfl, rfl⟩
  | succ k ih =>
      obtain ⟨h1, h2, h3⟩ := ih
      rw [trajCore, stepCore_prm, stepCore_dt, stepCore_v_length]
      exact ⟨h1, h2, h3⟩

theorem traj_countdown (expf : ℚ → ℚ) (inputs : ℕ → ℚ × ℚ × ℚ × ℚ)
    (n0 : LIFState) (it : ℕ)
    (h1 : (trajCore expf inputs n0 (it + 1)).tr = n0.prm.tref / n0.dt) :
    ∀ j : ℕ, (j : ℚ) ≤ n0.prm.tref / n0.dt →
      (trajCore expf inputs n0 (it + 1 + j)).tr = n0.prm.tref / n0.dt - j := by
  intro j
  induction j with
  | zero =>
      intro _
      simpa using h1
  | succ j ih =>
      intro hj
      have hj' : (j : ℚ) ≤ n0.prm.tref / n0.dt := by
        push_cast at hj
        linarith
      have htr := ih hj'
      have hpos : (trajCore expf inputs n0 (it + 1 + j)).tr > 0 := by
        rw [htr]
        push_cast at hj
        linarith
      have hstep : trajCore expf inputs n0 (it + 1 + (j + 1))
          = stepCore expf (trajCore expf inputs n0 (it + 1 + j)) (it + 1 + j)
            (inputs (it + 1 + j)) := by
        rw [show it + 1 + (j + 1) = (it + 1 + j) + 1 by omega, trajCore]
      rw [hstep, stepCore_tr, fireCheck_eq, if_pos hpos]
      simp only [htr]
      push_cast
      ring

/-- C4: fix any LIF neuron driven by arbitrary per-step input aggregates,
with `tref ≥ 0` and `dt > 0`.  If a spike is emitted at step `it` — the
transition finds the neuron non-refractory and `v[it] ≥ V_th` — then the
spike flag is set and the refractory counter is armed to `tref/dt`; during
every subsequent in-range step `it + j` with `1 ≤ j ≤ tref/dt` the
potential sample `v[it+j]` is forced to `V_reset` when that step executes
and no spike is emitted there (so none occurs strictly before `tref/dt`
steps have elapsed); and at every step the spike flag is recomputed: it is
reset to 0 and becomes 1 exactly on a threshold crossing outside the
refractory period. -/
theorem C4_refractory_invariant (expf : ℚ → ℚ)
    (inputs : ℕ → ℚ × ℚ × ℚ × ℚ) (n0 : LIFState) (it : ℕ)
    (htref : 0 ≤ n0.prm.tref) (hdt : 0 < n0.dt)
    (hntr : ¬ (trajCore expf inputs n0 it).tr > 0)
    (hth : (trajCore expf inputs n0 it).v.getD it 0 ≥ n0.prm.V_th) :
    ((trajCore expf inputs n0 (it + 1)).spike = 1 ∧
      (trajCore expf inputs n0 (it + 1)).tr = n0.prm.tref / n0.dt) ∧
      (∀ j : ℕ, 1 ≤ j → (j : ℚ) ≤ n0.prm.tref / n0.dt → it + j < n0.v.length →
        (trajCore expf inputs n0 (it + j + 1)).v.getD (it + j) 0
            = n0.prm.V_reset ∧
          (trajCore expf inputs n0 (it + j + 1)).spike = 0) ∧
      (∀ k, (trajCore expf inputs n0 (k + 1)).spike =
        if ¬ (trajCore expf inputs n0 k).tr > 0 ∧
            (trajCore expf inputs n0 k).v.getD k 0 ≥ n0.prm.V_th
        then 1 else 0) := by
  have hflag : ∀ k, (trajCore expf inputs n0 (k + 1)).spike =
      if ¬ (trajCore expf inputs n0 k).tr > 0 ∧
          (trajCore expf inputs n0 k).v.getD k 0 ≥ n0.prm.V_th
      then 1 else 0 := by
    intro k
    obtain ⟨hprm, _, _⟩ := trajCore_inv expf inputs n0 k
    rw [trajCore, stepCore_spike, fireCheck_eq]
    by_cases ha : (trajCore expf inputs n0 k).tr > 0
    · rw [if_pos ha, if_neg (by tauto)]
    · rw [if_neg ha]
      by_cases hb : (trajCore expf inputs n0 k).v.getD k 0
          ≥ (trajCore expf inputs n0 k).prm.V_th
      · rw [if_pos hb, if_pos ⟨ha, hprm ▸ hb⟩]
      · rw [if_neg hb, if_neg (by rw [hprm] at hb; tauto)]
  have hfire1 : (trajCore expf inputs n0 (it + 1)).spike = 1 ∧
      (trajCore expf inputs n0 (it + 1)).tr = n0.prm.tref / n0.dt := by
    obtain ⟨hprm, hdt2, _⟩ := trajCore_inv expf inputs n0 it
    constructor
    · rw [hflag it, if_pos ⟨hntr, hth⟩]
    · rw [trajCore, stepCore_tr, fireCheck_eq, if_neg hntr,
        if_pos (hprm ▸ hth), hprm, hdt2]
  refine ⟨hfire1, ?_, hflag⟩
  intro j hj1 hjq hjlen
  have hj' : ((j - 1 : ℕ) : ℚ) ≤ n0.prm.tref / n0.dt := by
    have : ((j - 1 : ℕ) : ℚ) ≤ (j : ℚ) := by
      exact_mod_cast Nat.sub_le j 1
    linarith
  have htr := traj_countdown expf inputs n0 it hfire1.2 (j - 1) hj'
  have hidx : it + 1 + (j - 1) = it + j := by omega
  rw [hidx] at htr
  have hpos : (trajCore expf inputs n0 (it + j)).tr > 0 := by
    rw [htr]
    have : ((j - 1 : ℕ) : ℚ) = (j : ℚ) - 1 := by
      push_cast [Nat.cast_sub (by omega : 1 ≤ j)]
      ring
    rw [this]
    linarith
  obtain ⟨hprm, _, hlen⟩ := trajCore_inv expf inputs n0 (it + j)
  constructor
  · rw [trajCore, stepCore_v_getD_it, fireCheck_eq, if_pos hpos]
    simp only
    rw [getD_set_q, if_pos ⟨rfl, by rw [hlen]; exact hjlen⟩, hprm]
  · rw [trajCore, stepCore_spike, fireCheck_eq, if_pos hpos]

/-- C4 witness: a neuron with `V_init = V_th = -40`, `tref = 2`, `dt = 1`
(so `tref/dt = 2`) and no input spikes at step 0; steps 1 and 2 then force
`V_reset` and stay spikeless. -/
theorem C4_refractory_invariant_witness :
    (0 : ℚ) ≤ 2 ∧ (0 : ℚ) < 1 ∧
      ¬ (trajCore (fun _ => 0) (fun _ => (0, 0, 0, 0))
          (initsimLIF { prm := { V_init := -40 } } 4 1) 0).tr > 0 ∧
      (trajCore (fun _ => 0) (fun _ => (0, 0, 0, 0))
          (initsimLIF { prm := { V_init := -40 } } 4 1) 0).v.getD 0 0 ≥ -40 ∧
      ((trajCore (fun _ => 0) (fun _ => (0, 0, 0, 0))
          (initsimLIF { prm := { V_init := -40 } } 4 1) 1).spike = 1 ∧
        (trajCore (fun _ => 0) (fun _ => (0, 0, 0, 0))
          (initsimLIF { prm := { V_init := -40 } } 4 1) 1).tr = 2 / 1) := by
  have h1 : ¬ (trajCore (fun _ => 0) (fun _ => (0, 0, 0, 0))
      (initsimLIF { prm := { V_init := -40 } } 4 1) 0).tr > 0 := by
    norm_num [trajCore, initsimLIF]
  have h2 : (trajCore (fun _ => 0) (fun _ => (0, 0, 0, 0))
      (initsimLIF { prm := { V_init := -40 } } 4 1) 0).v.getD 0 0 ≥ -40 := by
    norm_num [trajCore, initsimLIF]
  have h3 := (C4_refractory_invariant (fun _ => 0) (fun _ => (0, 0, 0, 0))
      (initsimLIF { prm := { V_init := -40 } } 4 1) 0 (by norm_num [initsimLIF])
      (by norm_num [initsimLIF]) h1 h2).1
  exact ⟨by norm_num, by norm_num, h1, h2, h3⟩

end StgNet
